import Mathlib

/-!
ECP5 architecture definitions (`ecp5/archdefs.h`)

A shallow embedding of the identifier types of the ECP5 architecture model:
the tile coordinate `Location` with its Z-order (Morton) comparison, the
resource identifiers `BelId`, `WireId`, `PipId`, the secondary identifiers
`GroupId` and `DecalId`, the `ConstIds` enumeration and the per-cell record
`ArchCellInfo`.

Machine integers are mathematical integers restricted to their range:
`int16_t`, `int32_t` are subtypes of `Int`, `uint32_t` a subtype of `Nat`.
Conversions between widths are written out (`toUInt16`, `toUInt32`), and
every 32-bit unsigned operation that can carry out of the word is followed
by `% 2 ^ 32`.
-/

namespace Nextpnr

/-! ## Machine integers -/

/-- The smallest `int16_t`. -/
def INT16_MIN : Int := -32768

/-- The largest `int16_t`. -/
def INT16_MAX : Int := 32767

/-- Signed 16-bit integers. -/
abbrev int16_t : Type := { i : Int // INT16_MIN ≤ i ∧ i ≤ INT16_MAX }

/-- Signed 32-bit integers. -/
abbrev int32_t : Type := { i : Int // -2147483648 ≤ i ∧ i ≤ 2147483647 }

/-- Unsigned 32-bit integers. -/
abbrev uint32_t : Type := { n : Nat // n < 2 ^ 32 }

/-- Conversion of an `int` to `uint16_t`: reduction modulo `2 ^ 16`. -/
def toUInt16 (i : Int) : Nat := (i % 65536).toNat

/-- Conversion of an `int` to `unsigned int`: reduction modulo `2 ^ 32`. -/
def toUInt32 (i : Int) : Nat := (i % 4294967296).toNat

/-- Conversion of an `int` to `int16_t` (two's complement wrap-around). -/
def toInt16 (i : Int) : int16_t :=
  ⟨(i + 32768) % 65536 - 32768, by
    constructor
    · have := Int.emod_nonneg (i + 32768) (by decide : (65536 : Int) ≠ 0)
      simp only [INT16_MIN]; omega
    · have := Int.emod_lt_of_pos (i + 32768) (by decide : (0 : Int) < 65536)
      simp only [INT16_MAX]; omega⟩

/-- Conversion of an `int` to `int32_t` (two's complement wrap-around). -/
def toInt32 (i : Int) : int32_t :=
  ⟨(i + 2147483648) % 4294967296 - 2147483648, by
    constructor
    · have := Int.emod_nonneg (i + 2147483648) (by decide : (4294967296 : Int) ≠ 0)
      omega
    · have := Int.emod_lt_of_pos (i + 2147483648) (by decide : (0 : Int) < 4294967296)
      omega⟩

/-! ## Bit interleaving -/

/-- The masks `B[]` of `interleave`. -/
def interleave.B : Nat → Nat
  | 0 => 0x55555555
  | 1 => 0x33333333
  | 2 => 0x0F0F0F0F
  | _ => 0x00FF00FF

/-- The shift amounts `S[]` of `interleave`. -/
def interleave.S : Nat → Nat
  | 0 => 1
  | 1 => 2
  | 2 => 4
  | _ => 8

/-- The function `interleave(uint16_t in)`: the argument is a `uint16_t` value
(callers convert with `toUInt16`), every step is a 32-bit unsigned
operation. -/
def interleave (v : Nat) : Nat :=
  let x := v
  let x := (x ||| (x <<< interleave.S 3) % 2 ^ 32) &&& interleave.B 3
  let x := (x ||| (x <<< interleave.S 2) % 2 ^ 32) &&& interleave.B 2
  let x := (x ||| (x <<< interleave.S 1) % 2 ^ 32) &&& interleave.B 1
  let x := (x ||| (x <<< interleave.S 0) % 2 ^ 32) &&& interleave.B 0
  x

/-! ## Location -/

/-- The packed pair `LocationPOD`. -/
structure LocationPOD where
  x : int16_t
  y : int16_t
  deriving DecidableEq

/-- The tile coordinate `Location`. -/
structure Location where
  x : int16_t
  y : int16_t
  deriving DecidableEq

namespace Location

/-- The constructor `Location()`. -/
def default : Location := ⟨toInt16 (-1), toInt16 (-1)⟩

/-- The constructor `Location(const LocationPOD &pod)`. -/
def ofPOD (pod : LocationPOD) : Location := ⟨pod.x, pod.y⟩

/-- The member `operator==`. -/
def eq (a other : Location) : Bool :=
  decide (a.x.val = other.x.val) && decide (a.y.val = other.y.val)

/-- The member `operator!=`. -/
def ne (a other : Location) : Bool :=
  decide (a.x.val ≠ other.x.val) || decide (a.y.val ≠ other.y.val)

/-- The member `z_order()`. -/
def z_order (a : Location) : Nat :=
  ((interleave (toUInt16 (a.x.val - INT16_MIN)) <<< 1) % 2 ^ 32)
    ||| interleave (toUInt16 (a.y.val - INT16_MIN))

/-- The member `operator<`. -/
def lt (a other : Location) : Bool :=
  decide (a.z_order < other.z_order)

/-- The member `hash()`, over the external combinator `mkhash`. -/
def hash (mkhash : Nat → Nat → Nat) (a : Location) : Nat :=
  mkhash (toUInt32 a.x.val) (toUInt32 a.y.val)

end Location

/-- The free function `operator+` on `Location`. -/
def Location.add (a b : Location) : Location :=
  ⟨toInt16 (a.x.val + b.x.val), toInt16 (a.y.val + b.y.val)⟩

/-! ## Resource identifiers -/

/-- The identifier `BelId` of a placement site. -/
structure BelId where
  location : Location
  index : int32_t
  deriving DecidableEq

namespace BelId

/-- The default member initialisers of `BelId`. -/
def default : BelId := ⟨Location.default, toInt32 (-1)⟩

/-- The member `operator==`. -/
def eq (a other : BelId) : Bool :=
  decide (a.index.val = other.index.val) && a.location.eq other.location

/-- The member `operator!=`. -/
def ne (a other : BelId) : Bool :=
  decide (a.index.val ≠ other.index.val) || a.location.ne other.location

/-- The member `operator<`. -/
def lt (a other : BelId) : Bool :=
  if a.location.eq other.location then decide (a.index.val < other.index.val)
  else a.location.lt other.location

/-- The member `hash()`. -/
def hash (mkhash : Nat → Nat → Nat) (a : BelId) : Nat :=
  mkhash (a.location.hash mkhash) (toUInt32 a.index.val)

end BelId

/-- The identifier `WireId` of a routing wire. -/
structure WireId where
  location : Location
  index : int32_t
  deriving DecidableEq

namespace WireId

/-- The default member initialisers of `WireId`. -/
def default : WireId := ⟨Location.default, toInt32 (-1)⟩

/-- The member `operator==`. -/
def eq (a other : WireId) : Bool :=
  decide (a.index.val = other.index.val) && a.location.eq other.location

/-- The member `operator!=`. -/
def ne (a other : WireId) : Bool :=
  decide (a.index.val ≠ other.index.val) || a.location.ne other.location

/-- The member `operator<`. -/
def lt (a other : WireId) : Bool :=
  if a.location.eq other.location then decide (a.index.val < other.index.val)
  else a.location.lt other.location

/-- The member `hash()`. -/
def hash (mkhash : Nat → Nat → Nat) (a : WireId) : Nat :=
  mkhash (a.location.hash mkhash) (toUInt32 a.index.val)

end WireId

/-- The identifier `PipId` of a programmable interconnect point. -/
structure PipId where
  location : Location
  index : int32_t
  deriving DecidableEq

namespace PipId

/-- The default member initialisers of `PipId`. -/
def default : PipId := ⟨Location.default, toInt32 (-1)⟩

/-- The member `operator==`. -/
def eq (a other : PipId) : Bool :=
  decide (a.index.val = other.index.val) && a.location.eq other.location

/-- The member `operator!=`. -/
def ne (a other : PipId) : Bool :=
  decide (a.index.val ≠ other.index.val) || a.location.ne other.location

/-- The member `operator<`. -/
def lt (a other : PipId) : Bool :=
  if a.location.eq other.location then decide (a.index.val < other.index.val)
  else a.location.lt other.location

/-- The member `hash()`. -/
def hash (mkhash : Nat → Nat → Nat) (a : PipId) : Nat :=
  mkhash (a.location.hash mkhash) (toUInt32 a.index.val)

end PipId

/-! ## Secondary identifiers -/

/-- The unnamed enumeration of `GroupId` (underlying type `int8_t`). -/
inductive GroupType where
  | TYPE_NONE
  | TYPE_SWITCHBOX
  deriving DecidableEq

/-- The integer value of a `GroupId` enumerator. -/
def GroupType.toInt : GroupType → Int
  | .TYPE_NONE => 0
  | .TYPE_SWITCHBOX => 1

/-- The identifier `GroupId`. -/
structure GroupId where
  type : GroupType
  location : Location
  deriving DecidableEq

namespace GroupId

/-- The default member initialisers of `GroupId`. -/
def default : GroupId := ⟨GroupType.TYPE_NONE, Location.default⟩

/-- The member `operator==`. -/
def eq (a other : GroupId) : Bool :=
  decide (a.type.toInt = other.type.toInt) && a.location.eq other.location

/-- The member `operator!=`. -/
def ne (a other : GroupId) : Bool :=
  decide (a.type.toInt ≠ other.type.toInt) || a.location.ne other.location

/-- The member `hash()`. -/
def hash (mkhash : Nat → Nat → Nat) (a : GroupId) : Nat :=
  mkhash (a.location.hash mkhash) (toUInt32 a.type.toInt)

end GroupId

/-- The unnamed enumeration of `DecalId`. -/
inductive DecalType where
  | TYPE_NONE
  | TYPE_BEL
  | TYPE_WIRE
  | TYPE_PIP
  | TYPE_GROUP
  deriving DecidableEq

/-- The integer value of a `DecalId` enumerator. -/
def DecalType.toInt : DecalType → Int
  | .TYPE_NONE => 0
  | .TYPE_BEL => 1
  | .TYPE_WIRE => 2
  | .TYPE_PIP => 3
  | .TYPE_GROUP => 4

/-- The identifier `DecalId`. -/
structure DecalId where
  type : DecalType
  location : Location
  z : uint32_t
  active : Bool
  deriving DecidableEq

namespace DecalId

/-- The default member initialisers of `DecalId`. -/
def default : DecalId := ⟨DecalType.TYPE_NONE, Location.default, ⟨0, by decide⟩, false⟩

/-- The member `operator==`. -/
def eq (a other : DecalId) : Bool :=
  decide (a.type.toInt = other.type.toInt) && a.location.eq other.location
    && decide (a.z.val = other.z.val) && decide (a.active = other.active)

/-- The member `operator!=`. -/
def ne (a other : DecalId) : Bool :=
  decide (a.type.toInt ≠ other.type.toInt) || a.location.ne other.location
    || decide (a.z.val ≠ other.z.val) || decide (a.active ≠ other.active)

/-- The member `hash()`. -/
def hash (mkhash : Nat → Nat → Nat) (a : DecalId) : Nat :=
  mkhash (a.location.hash mkhash) (mkhash a.z.val (toUInt32 a.type.toInt))

end DecalId

/-- Exactly one of three propositions holds. -/
def ExactlyOne (p q r : Prop) : Prop :=
  (p ∧ ¬q ∧ ¬r) ∨ (¬p ∧ q ∧ ¬r) ∨ (¬p ∧ ¬q ∧ r)

instance (p q r : Prop) [Decidable p] [Decidable q] [Decidable r] :
    Decidable (ExactlyOne p q r) := by
  unfold ExactlyOne
  infer_instance

/-! ## The interned-identifier enumeration -/

/-- Modelled from the spec: the interned handle `IdString` of `idstring.h`, which
is not part of this file. A handle is its underlying integer; two handles are
equal iff their integers are equal, and handle 0 is "none". -/
structure IdString where
  index : Int
  deriving DecidableEq

/-- Modelled from the spec: the default constructor `IdString()` of
`idstring.h`, the "none" handle 0. -/
def IdString.default : IdString := ⟨0⟩

/-- The enumerators of `enum ConstIds`: `ID_NONE`, one `ID_<t>` for each
expansion `X(t)`, and `DB_CONST_ID_COUNT`. -/
inductive ConstIdName where
  | ID_NONE
  | ID (t : String)
  | DB_CONST_ID_COUNT
  deriving DecidableEq

/-- The values of an enumeration whose enumerators carry no initialiser: the
first gets the start value, every further one the value of its predecessor
plus one. -/
def enumValues {α : Type} : List α → Int → List (α × Int)
  | [], _ => []
  | e :: es, k => (e, k) :: enumValues es (k + 1)

/-- The enumerator list of `enum ConstIds` for the names that `constids.inc`
passes to `X`, in order. -/
def ConstIds.enumerators (constids : List String) : List ConstIdName :=
  ConstIdName.ID_NONE :: (constids.map ConstIdName.ID ++ [ConstIdName.DB_CONST_ID_COUNT])

/-- The enumeration `enum ConstIds`: every enumerator with its value. -/
def ConstIds (constids : List String) : List (ConstIdName × Int) :=
  enumValues (ConstIds.enumerators constids) 0

/-- The value of an enumerator of `ConstIds`, if it is declared. -/
def ConstIds.value (constids : List String) (e : ConstIdName) : Option Int :=
  (ConstIds constids).lookup e

/-- The constant `id_<t>`, generated by `X(t)` as `IdString(ID_<t>)`. -/
def id_ (constids : List String) (t : String) : Option IdString :=
  (ConstIds.value constids (ConstIdName.ID t)).map IdString.mk

/-! ## Auxiliary records -/

/-- The record `ArchNetInfo`. -/
structure ArchNetInfo where
  is_global : Bool := false

/-- The unnamed type of `ArchCellInfo::sliceInfo`. -/
structure SliceInfo where
  using_dff : Bool
  has_l6mux : Bool
  is_carry : Bool
  clk_sig : IdString
  lsr_sig : IdString
  clkmux : IdString
  lsrmux : IdString
  srmode : IdString
  sd0 : int32_t
  sd1 : int32_t

/-- The unnamed type of `ArchCellInfo::ramInfo`. -/
structure RamInfo where
  is_pdp : Bool
  is_output_a_registered : Bool
  is_output_b_registered : Bool
  regmode_timing_id : IdString

/-- The unnamed type of `ArchCellInfo::multInfo`. -/
structure MultInfo where
  is_clocked : Bool
  timing_id : IdString

/-- The record `ArchCellInfo`; its base class `BaseClusterInfo` is declared in
`base_clusterinfo.h` and enters as a type parameter. -/
structure ArchCellInfo (BaseClusterInfo : Type) where
  base : BaseClusterInfo
  sliceInfo : SliceInfo
  ramInfo : RamInfo
  multInfo : MultInfo

/-- The sub-records of `ArchCellInfo`. -/
inductive SubRecord where
  | sliceInfo
  | ramInfo
  | multInfo
  deriving DecidableEq

/-- An assignment to one member of an `ArchCellInfo`. -/
inductive FieldWrite where
  | slice_using_dff (v : Bool)
  | slice_has_l6mux (v : Bool)
  | slice_is_carry (v : Bool)
  | slice_clk_sig (v : IdString)
  | slice_lsr_sig (v : IdString)
  | slice_clkmux (v : IdString)
  | slice_lsrmux (v : IdString)
  | slice_srmode (v : IdString)
  | slice_sd0 (v : int32_t)
  | slice_sd1 (v : int32_t)
  | ram_is_pdp (v : Bool)
  | ram_is_output_a_registered (v : Bool)
  | ram_is_output_b_registered (v : Bool)
  | ram_regmode_timing_id (v : IdString)
  | mult_is_clocked (v : Bool)
  | mult_timing_id (v : IdString)

/-- The sub-record an assignment writes to. -/
def FieldWrite.target : FieldWrite → SubRecord
  | .slice_using_dff _ | .slice_has_l6mux _ | .slice_is_carry _ | .slice_clk_sig _
  | .slice_lsr_sig _ | .slice_clkmux _ | .slice_lsrmux _ | .slice_srmode _
  | .slice_sd0 _ | .slice_sd1 _ => SubRecord.sliceInfo
  | .ram_is_pdp _ | .ram_is_output_a_registered _ | .ram_is_output_b_registered _
  | .ram_regmode_timing_id _ => SubRecord.ramInfo
  | .mult_is_clocked _ | .mult_timing_id _ => SubRecord.multInfo

namespace ArchCellInfo

variable {BaseClusterInfo : Type}

/-- The record after the assignment `c.<sub-record>.<member> = v`. -/
def write (c : ArchCellInfo BaseClusterInfo) : FieldWrite → ArchCellInfo BaseClusterInfo
  | .slice_using_dff v => { c with sliceInfo := { c.sliceInfo with using_dff := v } }
  | .slice_has_l6mux v => { c with sliceInfo := { c.sliceInfo with has_l6mux := v } }
  | .slice_is_carry v => { c with sliceInfo := { c.sliceInfo with is_carry := v } }
  | .slice_clk_sig v => { c with sliceInfo := { c.sliceInfo with clk_sig := v } }
  | .slice_lsr_sig v => { c with sliceInfo := { c.sliceInfo with lsr_sig := v } }
  | .slice_clkmux v => { c with sliceInfo := { c.sliceInfo with clkmux := v } }
  | .slice_lsrmux v => { c with sliceInfo := { c.sliceInfo with lsrmux := v } }
  | .slice_srmode v => { c with sliceInfo := { c.sliceInfo with srmode := v } }
  | .slice_sd0 v => { c with sliceInfo := { c.sliceInfo with sd0 := v } }
  | .slice_sd1 v => { c with sliceInfo := { c.sliceInfo with sd1 := v } }
  | .ram_is_pdp v => { c with ramInfo := { c.ramInfo with is_pdp := v } }
  | .ram_is_output_a_registered v =>
      { c with ramInfo := { c.ramInfo with is_output_a_registered := v } }
  | .ram_is_output_b_registered v =>
      { c with ramInfo := { c.ramInfo with is_output_b_registered := v } }
  | .ram_regmode_timing_id v => { c with ramInfo := { c.ramInfo with regmode_timing_id := v } }
  | .mult_is_clocked v => { c with multInfo := { c.multInfo with is_clocked := v } }
  | .mult_timing_id v => { c with multInfo := { c.multInfo with timing_id := v } }

/-- The implicit default constructor of `ArchCellInfo`, run on storage whose
previous contents read as `storage`, with the base sub-object constructed as
`base`. The `IdString` members are default-constructed; the `bool` and `int`
members have no default member initialiser, the constructor does not touch
them and they keep what the storage holds. -/
def defaultInit (base : BaseClusterInfo) (storage : ArchCellInfo BaseClusterInfo) :
    ArchCellInfo BaseClusterInfo where
  base := base
  sliceInfo :=
    { using_dff := storage.sliceInfo.using_dff
      has_l6mux := storage.sliceInfo.has_l6mux
      is_carry := storage.sliceInfo.is_carry
      clk_sig := IdString.default
      lsr_sig := IdString.default
      clkmux := IdString.default
      lsrmux := IdString.default
      srmode := IdString.default
      sd0 := storage.sliceInfo.sd0
      sd1 := storage.sliceInfo.sd1 }
  ramInfo :=
    { is_pdp := storage.ramInfo.is_pdp
      is_output_a_registered := storage.ramInfo.is_output_a_registered
      is_output_b_registered := storage.ramInfo.is_output_b_registered
      regmode_timing_id := IdString.default }
  multInfo :=
    { is_clocked := storage.multInfo.is_clocked
      timing_id := IdString.default }

/-- Zero-initialised storage for an `ArchCellInfo`. -/
def zeroStorage (base : BaseClusterInfo) : ArchCellInfo BaseClusterInfo where
  base := base
  sliceInfo :=
    { using_dff := false, has_l6mux := false, is_carry := false,
      clk_sig := ⟨0⟩, lsr_sig := ⟨0⟩, clkmux := ⟨0⟩, lsrmux := ⟨0⟩, srmode := ⟨0⟩,
      sd0 := ⟨0, by decide⟩, sd1 := ⟨0, by decide⟩ }
  ramInfo :=
    { is_pdp := false, is_output_a_registered := false, is_output_b_registered := false,
      regmode_timing_id := ⟨0⟩ }
  multInfo := { is_clocked := false, timing_id := ⟨0⟩ }

/-- Value-initialisation `ArchCellInfo()`: the class has no user-provided
constructor, so the storage is zero-initialised before the implicit default
constructor runs. -/
def valueInit (base : BaseClusterInfo) : ArchCellInfo BaseClusterInfo :=
  defaultInit base (zeroStorage base)

/-- The record is all-zero: every flag is false, `sd0` and `sd1` are 0 and every
handle is "none". -/
def allZero (c : ArchCellInfo BaseClusterInfo) : Prop :=
  c.sliceInfo.using_dff = false ∧ c.sliceInfo.has_l6mux = false
    ∧ c.sliceInfo.is_carry = false
    ∧ c.sliceInfo.sd0.val = 0 ∧ c.sliceInfo.sd1.val = 0
    ∧ c.sliceInfo.clk_sig.index = 0 ∧ c.sliceInfo.lsr_sig.index = 0
    ∧ c.sliceInfo.clkmux.index = 0 ∧ c.sliceInfo.lsrmux.index = 0
    ∧ c.sliceInfo.srmode.index = 0
    ∧ c.ramInfo.is_pdp = false ∧ c.ramInfo.is_output_a_registered = false
    ∧ c.ramInfo.is_output_b_registered = false ∧ c.ramInfo.regmode_timing_id.index = 0
    ∧ c.multInfo.is_clocked = false ∧ c.multInfo.timing_id.index = 0

instance (c : ArchCellInfo BaseClusterInfo) : Decidable (allZero c) := by
  unfold allZero
  infer_instance

end ArchCellInfo

/-! ## Specification of bit spreading -/

/-- Specification of the Morton spreading of the low `k` bits of `v`: the
number whose base-4 digits are the binary digits of `v`, so that bit `i` of `v`
has weight `4 ^ i`. It is compared with `interleave` and `z_order`, which are
taken from the source. -/
def spreadBits : Nat → Nat → Nat
  | 0, _ => 0
  | k + 1, v => v % 2 + 4 * spreadBits k (v / 2)

/-! ## Bit-level lemmas -/

theorem testBit_shl_mod (x s j : Nat) :
    ((x <<< s) % 2 ^ 32).testBit j
      = (decide (j < 32) && (decide (s ≤ j) && x.testBit (j - s))) := by
  rw [Nat.testBit_mod_two_pow, Nat.testBit_shiftLeft]

theorem testBit_stage (x s b j : Nat) :
    ((x ||| (x <<< s) % 2 ^ 32) &&& b).testBit j
      = ((x.testBit j || (decide (j < 32) && (decide (s ≤ j) && x.testBit (j - s))))
          && b.testBit j) := by
  rw [Nat.testBit_and, Nat.testBit_or, testBit_shl_mod]

theorem testBit_ge32 (b j : Nat) (hb : b < 2 ^ 32) (hj : ¬ j < 32) : b.testBit j = false :=
  Nat.testBit_lt_two_pow (lt_of_lt_of_le hb (Nat.pow_le_pow_right (by norm_num) (by omega)))

theorem testBit_B (k j : Nat) (hk : k < 4) :
    (interleave.B k).testBit j = (decide (j < 32) && decide (j % 2 ^ (k + 1) < 2 ^ k)) := by
  by_cases hj : j < 32
  · interval_cases k <;> interval_cases j <;> rfl
  · rw [testBit_ge32 _ j (by interval_cases k <;> decide) hj]
    simp [hj]

theorem testBit_ge16 (v k : Nat) (hv : v < 65536) (hk : 16 ≤ k) : v.testBit k = false :=
  Nat.testBit_lt_two_pow (lt_of_lt_of_le hv
    (le_trans (by norm_num) (Nat.pow_le_pow_right (by norm_num) hk)))

/-- Bit `j` of `interleave v` is bit `j / 2` of `v` when `j` is even and below 32,
and is clear otherwise. -/
theorem interleave_testBit (v : Nat) (hv : v < 65536) (j : Nat) :
    (interleave v).testBit j
      = (decide (j < 32) && decide (j % 2 = 0) && v.testBit (j / 2)) := by
  have hhi : ∀ k, 16 ≤ k → v.testBit k = false := fun k hk => testBit_ge16 v k hv hk
  simp only [interleave, testBit_stage, testBit_B 0 _ (by decide), testBit_B 1 _ (by decide),
    testBit_B 2 _ (by decide), testBit_B 3 _ (by decide)]
  by_cases hj : j < 32
  · interval_cases j <;>
      simp [interleave.S, hhi, -Nat.testBit_zero]
  · simp [hj]

theorem interleave_lt (v : Nat) (hv : v < 65536) : interleave v < 2 ^ 31 := by
  apply Nat.lt_pow_two_of_testBit
  intro i hi
  rw [interleave_testBit v hv]
  by_cases h : i < 32
  · have : i = 31 := by omega
    subst this
    simp
  · simp [h]

/-- The biased coordinate is the coordinate plus `32768`, a 16-bit value. -/
theorem toUInt16_bias (a : int16_t) :
    ((toUInt16 (a.val - INT16_MIN) : Nat) : Int) = a.val - INT16_MIN
      ∧ toUInt16 (a.val - INT16_MIN) < 65536 := by
  obtain ⟨v, h1, h2⟩ := a
  have h1 : (-32768 : Int) ≤ v := h1
  have h2 : v ≤ (32767 : Int) := h2
  show (((v - (-32768 : Int)) % 65536).toNat : Int) = v - (-32768 : Int)
    ∧ ((v - (-32768 : Int)) % 65536).toNat < 65536
  constructor <;> omega

theorem toUInt16_bias_inj (a b : int16_t)
    (h : toUInt16 (a.val - INT16_MIN) = toUInt16 (b.val - INT16_MIN)) : a = b := by
  have ha := (toUInt16_bias a).1
  have hb := (toUInt16_bias b).1
  rw [h] at ha
  apply Subtype.ext
  omega

/-- The bits of `z_order`: odd positions carry the biased `x`, even positions
the biased `y`. -/
theorem z_order_testBit (a : Location) (i : Nat) (hi : i < 16) :
    a.z_order.testBit (2 * i + 1) = (toUInt16 (a.x.val - INT16_MIN)).testBit i
      ∧ a.z_order.testBit (2 * i) = (toUInt16 (a.y.val - INT16_MIN)).testBit i := by
  have hx := (toUInt16_bias a.x).2
  have hy := (toUInt16_bias a.y).2
  simp only [Location.z_order, Nat.testBit_or, testBit_shl_mod, interleave_testBit _ hx,
    interleave_testBit _ hy]
  constructor
  · have h1 : 2 * i + 1 < 32 := by omega
    have h2 : (2 * i + 1) % 2 = 1 := by omega
    have h3 : (2 * i + 1 - 1) / 2 = i := by omega
    have h4 : (2 * i + 1 - 1) % 2 = 0 := by omega
    have h5 : 2 * i + 1 - 1 < 32 := by omega
    have h6 : 2 * i < 32 := by omega
    simp [h1, h2, h3, h4, h5, h6]
  · have h1 : 2 * i < 32 := by omega
    have h2 : (2 * i) % 2 = 0 := by omega
    have h3 : (2 * i) / 2 = i := by omega
    have h4 : (2 * i - 1) % 2 = 0 ↔ i = 0 := by omega
    by_cases h0 : i = 0
    · subst h0; simp
    · have h5 : ¬ (2 * i - 1) % 2 = 0 := by omega
      simp [h1, h2, h3, h5]

theorem z_order_inj (a b : Location) (h : a.z_order = b.z_order) : a = b := by
  have key : ∀ (u v : Nat), u < 65536 → v < 65536 →
      (∀ i, i < 16 → u.testBit i = v.testBit i) → u = v := by
    intro u v hu hv hbits
    apply Nat.eq_of_testBit_eq
    intro i
    by_cases hi : i < 16
    · exact hbits i hi
    · rw [testBit_ge16 u i hu (by omega), testBit_ge16 v i hv (by omega)]
  have hx : a.x = b.x := by
    apply toUInt16_bias_inj
    apply key _ _ (toUInt16_bias a.x).2 (toUInt16_bias b.x).2
    intro i hi
    rw [← (z_order_testBit a i hi).1, ← (z_order_testBit b i hi).1, h]
  have hy : a.y = b.y := by
    apply toUInt16_bias_inj
    apply key _ _ (toUInt16_bias a.y).2 (toUInt16_bias b.y).2
    intro i hi
    rw [← (z_order_testBit a i hi).2, ← (z_order_testBit b i hi).2, h]
  cases a; cases b
  simp_all

theorem location_eq_iff (a b : Location) : a.eq b = true ↔ a = b := by
  cases a; cases b
  simp [Location.eq, Subtype.ext_iff]

theorem mod_two_pow_eq_sum (n k : Nat) :
    n % 2 ^ k = ∑ i in Finset.range k, (n / 2 ^ i % 2) * 2 ^ i := by
  induction k with
  | zero => simp [Nat.mod_one]
  | succ k ih =>
    rw [Finset.sum_range_succ, ← ih, Nat.mod_pow_succ]
    ring

theorem sum_range_double (f : Nat → Nat) (n : Nat) :
    ∑ j in Finset.range (2 * n), f j
      = ∑ i in Finset.range n, (f (2 * i + 1) + f (2 * i)) := by
  induction n with
  | zero => simp
  | succ n ih =>
    rw [show 2 * (n + 1) = 2 * n + 1 + 1 from by ring, Finset.sum_range_succ,
      Finset.sum_range_succ, Finset.sum_range_succ, ih]
    ring

theorem z_order_lt (a : Location) : a.z_order < 2 ^ 32 := by
  have hy := interleave_lt _ (toUInt16_bias a.y).2
  exact Nat.or_lt_two_pow (Nat.mod_lt _ (by norm_num))
    (lt_trans hy (by norm_num))

theorem z_order_div_mod (a : Location) (i : Nat) (hi : i < 16) :
    a.z_order / 2 ^ (2 * i + 1) % 2 = toUInt16 (a.x.val - INT16_MIN) / 2 ^ i % 2
      ∧ a.z_order / 2 ^ (2 * i) % 2 = toUInt16 (a.y.val - INT16_MIN) / 2 ^ i % 2 := by
  simp only [← Nat.toNat_testBit]
  rw [(z_order_testBit a i hi).1, (z_order_testBit a i hi).2]
  exact ⟨rfl, rfl⟩

/-! ## The coordinate order -/

/-- C1: `Location::operator<` is a strict total order consistent with
`operator==`: it is irreflexive and transitive, exactly one of `a < b`,
`a == b`, `b < a` holds, and `z_order()` is injective. -/
theorem location_lt_strict_total_order (a b c : Location) :
    a.lt a = false
      ∧ (a.lt b = true → b.lt c = true → a.lt c = true)
      ∧ ExactlyOne (a.lt b = true) (a.eq b = true) (b.lt a = true)
      ∧ (a.z_order = b.z_order → a.x.val = b.x.val ∧ a.y.val = b.y.val) := by
  refine ⟨by simp [Location.lt], ?_, ?_, ?_⟩
  · simp only [Location.lt, decide_eq_true_eq]
    exact fun h1 h2 => lt_trans h1 h2
  · simp only [ExactlyOne, Location.lt, decide_eq_true_eq, location_eq_iff]
    rcases Nat.lt_trichotomy a.z_order b.z_order with h | h | h
    · refine Or.inl ⟨h, ?_, by omega⟩
      rintro rfl
      exact lt_irrefl _ h
    · have hab := z_order_inj a b h
      exact Or.inr (Or.inl ⟨by omega, hab, by omega⟩)
    · refine Or.inr (Or.inr ⟨by omega, ?_, h⟩)
      rintro rfl
      exact lt_irrefl _ h
  · intro h
    have hab := z_order_inj a b h
    subst hab
    exact ⟨rfl, rfl⟩

/-- An instance of C1 on three tiles of the first row and column. -/
theorem location_lt_strict_total_order_witness :
    (Location.mk (toInt16 0) (toInt16 0)).lt (Location.mk (toInt16 0) (toInt16 1)) = true
      ∧ (Location.mk (toInt16 0) (toInt16 1)).lt (Location.mk (toInt16 1) (toInt16 0)) = true
      ∧ (Location.mk (toInt16 0) (toInt16 0)).lt (Location.mk (toInt16 1) (toInt16 0)) = true :=
  ⟨by decide, by decide,
    (location_lt_strict_total_order (Location.mk (toInt16 0) (toInt16 0))
      (Location.mk (toInt16 0) (toInt16 1)) (Location.mk (toInt16 1) (toInt16 0))).2.1
      (by decide) (by decide)⟩

/-- C2: `z_order()` is the 32-bit Morton code of the biased coordinates
`X = x - INT16_MIN` and `Y = y - INT16_MIN`: both lie in `0..65535` without
truncation, bit `2i+1` of the code is bit `i` of `X` and bit `2i` is bit `i`
of `Y`, the code is the sum of `X_i * 2^(2i+1) + Y_i * 2^(2i)`, and the left
shift by one loses no bit. -/
theorem z_order_morton (a : Location) :
    (((toUInt16 (a.x.val - INT16_MIN) : Nat) : Int) = a.x.val - INT16_MIN
        ∧ toUInt16 (a.x.val - INT16_MIN) < 65536)
      ∧ (((toUInt16 (a.y.val - INT16_MIN) : Nat) : Int) = a.y.val - INT16_MIN
        ∧ toUInt16 (a.y.val - INT16_MIN) < 65536)
      ∧ (∀ i, i < 16 →
          a.z_order.testBit (2 * i + 1) = (toUInt16 (a.x.val - INT16_MIN)).testBit i
            ∧ a.z_order.testBit (2 * i) = (toUInt16 (a.y.val - INT16_MIN)).testBit i)
      ∧ a.z_order = ∑ i in Finset.range 16,
          ((toUInt16 (a.x.val - INT16_MIN) / 2 ^ i % 2) * 2 ^ (2 * i + 1)
            + (toUInt16 (a.y.val - INT16_MIN) / 2 ^ i % 2) * 2 ^ (2 * i))
      ∧ (interleave (toUInt16 (a.x.val - INT16_MIN)) <<< 1) % 2 ^ 32
          = interleave (toUInt16 (a.x.val - INT16_MIN)) <<< 1
      ∧ a.z_order < 2 ^ 32 := by
  refine ⟨toUInt16_bias a.x, toUInt16_bias a.y, z_order_testBit a, ?_, ?_, z_order_lt a⟩
  · have h := mod_two_pow_eq_sum a.z_order 32
    rw [Nat.mod_eq_of_lt (z_order_lt a), show 32 = 2 * 16 from rfl, sum_range_double] at h
    rw [h]
    apply Finset.sum_congr rfl
    intro i hi
    have hi16 : i < 16 := Finset.mem_range.mp hi
    rw [(z_order_div_mod a i hi16).1, (z_order_div_mod a i hi16).2]
  · apply Nat.mod_eq_of_lt
    have hx := interleave_lt _ (toUInt16_bias a.x).2
    rw [Nat.shiftLeft_eq]
    have : (2 : Nat) ^ 32 = 2 ^ 31 * 2 ^ 1 := by norm_num
    omega

/-- An instance of C2 at the sentinel coordinate: the top bit pair of its code. -/
theorem z_order_morton_witness :
    Location.default.z_order.testBit 31 = false
      ∧ Location.default.z_order.testBit 30 = false
      ∧ Location.default.z_order.testBit 29 = true :=
  ⟨((z_order_morton Location.default).2.2.1 15 (by decide)).1.trans (by decide),
    ((z_order_morton Location.default).2.2.1 15 (by decide)).2.trans (by decide),
    ((z_order_morton Location.default).2.2.1 14 (by decide)).1.trans (by decide)⟩

/-! ## The order of the resource identifiers -/

theorem location_lt_iff (a b : Location) : a.lt b = true ↔ a.z_order < b.z_order := by
  simp [Location.lt]

theorem location_eq_iff_z_order (a b : Location) : a.eq b = true ↔ a.z_order = b.z_order := by
  rw [location_eq_iff]
  exact ⟨fun h => by rw [h], z_order_inj a b⟩

/-- The comparison shared by `BelId`, `WireId` and `PipId`, as a lexicographic
order on `(z_order, index)`. -/
theorem lex_lt_iff (la lb : Location) (ia ib : Int) :
    (if la.eq lb then decide (ia < ib) else la.lt lb) = true
      ↔ (la.z_order < lb.z_order ∨ (la.z_order = lb.z_order ∧ ia < ib)) := by
  by_cases h : la.eq lb = true
  · have hz := (location_eq_iff_z_order la lb).mp h
    simp only [h, if_true, decide_eq_true_eq]
    omega
  · have hz : ¬ la.z_order = lb.z_order := fun hz => h ((location_eq_iff_z_order la lb).mpr hz)
    simp only [h, location_lt_iff]
    simp only [Bool.false_eq_true, if_false, location_lt_iff]
    omega

theorem lex_eq_iff (la lb : Location) (ia ib : Int) :
    (decide (ia = ib) && la.eq lb) = true ↔ (la.z_order = lb.z_order ∧ ia = ib) := by
  rw [Bool.and_eq_true, location_eq_iff_z_order, decide_eq_true_eq]
  exact And.comm

theorem belId_lt_iff (a b : BelId) : a.lt b = true ↔
    (a.location.z_order < b.location.z_order
      ∨ (a.location.z_order = b.location.z_order ∧ a.index.val < b.index.val)) :=
  lex_lt_iff _ _ _ _

theorem wireId_lt_iff (a b : WireId) : a.lt b = true ↔
    (a.location.z_order < b.location.z_order
      ∨ (a.location.z_order = b.location.z_order ∧ a.index.val < b.index.val)) :=
  lex_lt_iff _ _ _ _

theorem pipId_lt_iff (a b : PipId) : a.lt b = true ↔
    (a.location.z_order < b.location.z_order
      ∨ (a.location.z_order = b.location.z_order ∧ a.index.val < b.index.val)) :=
  lex_lt_iff _ _ _ _

theorem belId_eq_iff (a b : BelId) : a.eq b = true ↔
    (a.location.z_order = b.location.z_order ∧ a.index.val = b.index.val) :=
  lex_eq_iff _ _ _ _

theorem wireId_eq_iff (a b : WireId) : a.eq b = true ↔
    (a.location.z_order = b.location.z_order ∧ a.index.val = b.index.val) :=
  lex_eq_iff _ _ _ _

theorem pipId_eq_iff (a b : PipId) : a.eq b = true ↔
    (a.location.z_order = b.location.z_order ∧ a.index.val = b.index.val) :=
  lex_eq_iff _ _ _ _

/-- C3: for `BelId`, `WireId` and `PipId`, `a < b` holds exactly when
`a.location < b.location`, or `a.location == b.location` and
`a.index < b.index`; equivalently `operator<` is the lexicographic order on
`(z_order(location), index)`. -/
theorem id_lt_lexicographic (a b : BelId) (c d : WireId) (e f : PipId) :
    ((a.lt b = true ↔ (a.location.lt b.location = true
          ∨ (a.location.eq b.location = true ∧ a.index.val < b.index.val)))
        ∧ (a.lt b = true ↔ (a.location.z_order < b.location.z_order
          ∨ (a.location.z_order = b.location.z_order ∧ a.index.val < b.index.val))))
      ∧ ((c.lt d = true ↔ (c.location.lt d.location = true
          ∨ (c.location.eq d.location = true ∧ c.index.val < d.index.val)))
        ∧ (c.lt d = true ↔ (c.location.z_order < d.location.z_order
          ∨ (c.location.z_order = d.location.z_order ∧ c.index.val < d.index.val))))
      ∧ ((e.lt f = true ↔ (e.location.lt f.location = true
          ∨ (e.location.eq f.location = true ∧ e.index.val < f.index.val)))
        ∧ (e.lt f = true ↔ (e.location.z_order < f.location.z_order
          ∨ (e.location.z_order = f.location.z_order ∧ e.index.val < f.index.val)))) := by
  simp only [location_lt_iff, location_eq_iff_z_order]
  exact ⟨⟨belId_lt_iff a b, belId_lt_iff a b⟩, ⟨wireId_lt_iff c d, wireId_lt_iff c d⟩,
    ⟨pipId_lt_iff e f, pipId_lt_iff e f⟩⟩

/-- An instance of C3: identifiers at one tile are ordered by index, identifiers
at different tiles by the tile, whatever the index. -/
theorem id_lt_lexicographic_witness :
    (BelId.mk Location.default (toInt32 3)).lt (BelId.mk Location.default (toInt32 7)) = true
      ∧ (WireId.mk Location.default (toInt32 9)).lt
          (WireId.mk (Location.mk (toInt16 0) (toInt16 0)) (toInt32 2)) = true
      ∧ (PipId.mk (Location.mk (toInt16 0) (toInt16 0)) (toInt32 2)).lt
          (PipId.mk Location.default (toInt32 9)) = false :=
  have h := id_lt_lexicographic
    (BelId.mk Location.default (toInt32 3)) (BelId.mk Location.default (toInt32 7))
    (WireId.mk Location.default (toInt32 9))
    (WireId.mk (Location.mk (toInt16 0) (toInt16 0)) (toInt32 2))
    (PipId.mk (Location.mk (toInt16 0) (toInt16 0)) (toInt32 2))
    (PipId.mk Location.default (toInt32 9))
  ⟨h.1.1.mpr (Or.inr ⟨by decide, by decide⟩), h.2.1.1.mpr (Or.inl (by decide)),
    Bool.eq_false_iff.mpr (fun hlt => absurd (h.2.2.1.mp hlt) (by decide))⟩

theorem lex_strict_total_order {α : Type} (lt eq : α → α → Bool) (z : α → Nat) (ix : α → Int)
    (hlt : ∀ a b, lt a b = true ↔ (z a < z b ∨ (z a = z b ∧ ix a < ix b)))
    (heq : ∀ a b, eq a b = true ↔ (z a = z b ∧ ix a = ix b)) (a b c : α) :
    lt a a = false
      ∧ (lt a b = true → lt b c = true → lt a c = true)
      ∧ ExactlyOne (lt a b = true) (eq a b = true) (lt b a = true)
      ∧ ((lt a b = false ∧ lt b a = false) ↔ eq a b = true) := by
  have haa := hlt a a
  have hab := hlt a b
  have hba := hlt b a
  have hbc := hlt b c
  have hac := hlt a c
  have hab2 := heq a b
  refine ⟨?_, ?_, ?_, ?_⟩
  · rw [← Bool.not_eq_true, haa]; omega
  · rw [hab, hbc, hac]; omega
  · unfold ExactlyOne
    rw [hab, hba, hab2]; omega
  · rw [← Bool.not_eq_true, ← Bool.not_eq_true, hab, hba, hab2]; omega

/-- C4: for `BelId`, `WireId` and `PipId`, `operator<` is a strict total order
consistent with `operator==`: irreflexive, transitive, exactly one of `a < b`,
`a == b`, `b < a` holds, and two identifiers are order-equivalent exactly when
they are equal. -/
theorem id_lt_strict_total_order (a b c : BelId) (d e f : WireId) (g h i : PipId) :
    (a.lt a = false
        ∧ (a.lt b = true → b.lt c = true → a.lt c = true)
        ∧ ExactlyOne (a.lt b = true) (a.eq b = true) (b.lt a = true)
        ∧ ((a.lt b = false ∧ b.lt a = false) ↔ a.eq b = true))
      ∧ (d.lt d = false
        ∧ (d.lt e = true → e.lt f = true → d.lt f = true)
        ∧ ExactlyOne (d.lt e = true) (d.eq e = true) (e.lt d = true)
        ∧ ((d.lt e = false ∧ e.lt d = false) ↔ d.eq e = true))
      ∧ (g.lt g = false
        ∧ (g.lt h = true → h.lt i = true → g.lt i = true)
        ∧ ExactlyOne (g.lt h = true) (g.eq h = true) (h.lt g = true)
        ∧ ((g.lt h = false ∧ h.lt g = false) ↔ g.eq h = true)) := by
  exact ⟨lex_strict_total_order BelId.lt BelId.eq (fun t => t.location.z_order)
      (fun t => t.index.val) belId_lt_iff belId_eq_iff a b c,
    lex_strict_total_order WireId.lt WireId.eq (fun t => t.location.z_order)
      (fun t => t.index.val) wireId_lt_iff wireId_eq_iff d e f,
    lex_strict_total_order PipId.lt PipId.eq (fun t => t.location.z_order)
      (fun t => t.index.val) pipId_lt_iff pipId_eq_iff g h i⟩

/-- An instance of C4: three sites of one tile, ordered by their index. -/
theorem id_lt_strict_total_order_witness :
    (BelId.mk Location.default (toInt32 1)).lt (BelId.mk Location.default (toInt32 2)) = true
      ∧ (BelId.mk Location.default (toInt32 2)).lt (BelId.mk Location.default (toInt32 3)) = true
      ∧ (BelId.mk Location.default (toInt32 1)).lt (BelId.mk Location.default (toInt32 3)) = true :=
  ⟨by decide, by decide,
    (id_lt_strict_total_order
      (BelId.mk Location.default (toInt32 1)) (BelId.mk Location.default (toInt32 2))
      (BelId.mk Location.default (toInt32 3))
      WireId.default WireId.default WireId.default
      PipId.default PipId.default PipId.default).1.2.1 (by decide) (by decide)⟩

/-! ## Equality and hashing -/

theorem belId_eq_iff_eq (a b : BelId) : a.eq b = true ↔ a = b := by
  cases a; cases b
  simp [BelId.eq, location_eq_iff, Subtype.ext_iff, and_comm]

theorem wireId_eq_iff_eq (a b : WireId) : a.eq b = true ↔ a = b := by
  cases a; cases b
  simp [WireId.eq, location_eq_iff, Subtype.ext_iff, and_comm]

theorem pipId_eq_iff_eq (a b : PipId) : a.eq b = true ↔ a = b := by
  cases a; cases b
  simp [PipId.eq, location_eq_iff, Subtype.ext_iff, and_comm]

theorem groupType_toInt_inj (s t : GroupType) : s.toInt = t.toInt ↔ s = t := by
  cases s <;> cases t <;> simp [GroupType.toInt]

theorem decalType_toInt_inj (s t : DecalType) : s.toInt = t.toInt ↔ s = t := by
  cases s <;> cases t <;> simp [DecalType.toInt]

theorem groupId_eq_iff_eq (a b : GroupId) : a.eq b = true ↔ a = b := by
  cases a; cases b
  simp [GroupId.eq, location_eq_iff, groupType_toInt_inj]

theorem decalId_eq_iff_eq (a b : DecalId) : a.eq b = true ↔ a = b := by
  cases a; cases b
  simp [DecalId.eq, location_eq_iff, decalType_toInt_inj, Subtype.ext_iff, and_assoc]

/-- C5: on `Location`, `BelId`, `WireId`, `PipId`, `GroupId` and `DecalId`,
values that compare equal under `operator==` have equal `hash()`, whatever the
combinator `mkhash` is. -/
theorem hash_consistent_with_eq (mkhash : Nat → Nat → Nat)
    (l l' : Location) (b b' : BelId) (w w' : WireId) (p p' : PipId)
    (g g' : GroupId) (d d' : DecalId) :
    (l.eq l' = true → l.hash mkhash = l'.hash mkhash)
      ∧ (b.eq b' = true → b.hash mkhash = b'.hash mkhash)
      ∧ (w.eq w' = true → w.hash mkhash = w'.hash mkhash)
      ∧ (p.eq p' = true → p.hash mkhash = p'.hash mkhash)
      ∧ (g.eq g' = true → g.hash mkhash = g'.hash mkhash)
      ∧ (d.eq d' = true → d.hash mkhash = d'.hash mkhash) := by
  refine ⟨fun h => ?_, fun h => ?_, fun h => ?_, fun h => ?_, fun h => ?_, fun h => ?_⟩
  · rw [(location_eq_iff l l').mp h]
  · rw [(belId_eq_iff_eq b b').mp h]
  · rw [(wireId_eq_iff_eq w w').mp h]
  · rw [(pipId_eq_iff_eq p p').mp h]
  · rw [(groupId_eq_iff_eq g g').mp h]
  · rw [(decalId_eq_iff_eq d d').mp h]

/-- An instance of C5 with the combinator `a * 33 + b`, on a decal identifier
built twice from the same fields. -/
theorem hash_consistent_with_eq_witness :
    (DecalId.mk DecalType.TYPE_WIRE (Location.mk (toInt16 3) (toInt16 4)) ⟨7, by decide⟩ true).eq
        (DecalId.mk DecalType.TYPE_WIRE (Location.ofPOD ⟨toInt16 3, toInt16 4⟩)
          ⟨7, by decide⟩ true) = true
      ∧ (DecalId.mk DecalType.TYPE_WIRE (Location.mk (toInt16 3) (toInt16 4))
          ⟨7, by decide⟩ true).hash (fun a b => a * 33 + b)
        = (DecalId.mk DecalType.TYPE_WIRE (Location.ofPOD ⟨toInt16 3, toInt16 4⟩)
          ⟨7, by decide⟩ true).hash (fun a b => a * 33 + b) :=
  ⟨by decide,
    (hash_consistent_with_eq (fun a b => a * 33 + b) Location.default Location.default
      BelId.default BelId.default WireId.default WireId.default PipId.default PipId.default
      GroupId.default GroupId.default
      (DecalId.mk DecalType.TYPE_WIRE (Location.mk (toInt16 3) (toInt16 4)) ⟨7, by decide⟩ true)
      (DecalId.mk DecalType.TYPE_WIRE (Location.ofPOD ⟨toInt16 3, toInt16 4⟩)
        ⟨7, by decide⟩ true)).2.2.2.2.2 (by decide)⟩

/-- C6: `operator==` is structural equality on every identifier type: on
`Location` both coordinates, on `BelId`, `WireId`, `PipId` location and index,
on `GroupId` tag and location, on `DecalId` type, location, depth and active
flag; decals that differ only in depth, or only in the active flag, compare
unequal. -/
theorem eq_structural (l l' : Location) (b b' : BelId) (w w' : WireId) (p p' : PipId)
    (g g' : GroupId) (d d' : DecalId) :
    (l.eq l' = true ↔ (l.x.val = l'.x.val ∧ l.y.val = l'.y.val))
      ∧ (b.eq b' = true ↔ (b.location = b'.location ∧ b.index.val = b'.index.val))
      ∧ (w.eq w' = true ↔ (w.location = w'.location ∧ w.index.val = w'.index.val))
      ∧ (p.eq p' = true ↔ (p.location = p'.location ∧ p.index.val = p'.index.val))
      ∧ (g.eq g' = true ↔ (g.type = g'.type ∧ g.location = g'.location))
      ∧ (d.eq d' = true ↔ (d.type = d'.type ∧ d.location = d'.location
          ∧ d.z.val = d'.z.val ∧ d.active = d'.active))
      ∧ (d.type = d'.type → d.location = d'.location → d.active = d'.active
          → d.z.val ≠ d'.z.val → d.eq d' = false)
      ∧ (d.type = d'.type → d.location = d'.location → d.z.val = d'.z.val
          → d.active ≠ d'.active → d.eq d' = false) := by
  refine ⟨?_, ?_, ?_, ?_, ?_, ?_, ?_, ?_⟩
  · simp [Location.eq]
  · simp [BelId.eq, location_eq_iff, and_comm]
  · simp [WireId.eq, location_eq_iff, and_comm]
  · simp [PipId.eq, location_eq_iff, and_comm]
  · simp [GroupId.eq, location_eq_iff, groupType_toInt_inj]
  · simp [DecalId.eq, location_eq_iff, decalType_toInt_inj, and_assoc]
  · intro _ _ _ hz
    simp [DecalId.eq, hz]
  · intro _ _ _ ha
    simp [DecalId.eq, ha]

/-- An instance of C6: the default decal and the same decal marked active
compare unequal. -/
theorem eq_structural_witness :
    DecalId.default.eq { DecalId.default with active := true } = false :=
  (eq_structural Location.default Location.default BelId.default BelId.default
    WireId.default WireId.default PipId.default PipId.default GroupId.default GroupId.default
    DecalId.default { DecalId.default with active := true }).2.2.2.2.2.2.2
    rfl rfl rfl (by decide)

/-! ## Wire identifiers as container keys -/

theorem wireId_not_lt_total (a b : WireId) : b.lt a = false ∨ a.lt b = false := by
  have hab := wireId_lt_iff a b
  have hba := wireId_lt_iff b a
  rw [← Bool.not_eq_true, ← Bool.not_eq_true, hab, hba]
  omega

theorem wireId_not_lt_trans (a b c : WireId) (h1 : b.lt a = false) (h2 : c.lt b = false) :
    c.lt a = false := by
  have hba := wireId_lt_iff b a
  have hcb := wireId_lt_iff c b
  have hca := wireId_lt_iff c a
  rw [← Bool.not_eq_true, hba] at h1
  rw [← Bool.not_eq_true, hcb] at h2
  rw [← Bool.not_eq_true, hca]
  omega

theorem wireId_z_order_le_of_not_lt (a b : WireId) (h : b.lt a = false) :
    a.location.z_order ≤ b.location.z_order := by
  have hba := wireId_lt_iff b a
  rw [← Bool.not_eq_true, hba] at h
  omega

theorem wireId_equiv_iff_eq (a b : WireId) :
    (a.lt b = false ∧ b.lt a = false) ↔ a.eq b = true :=
  (lex_strict_total_order WireId.lt WireId.eq (fun t => t.location.z_order)
    (fun t => t.index.val) wireId_lt_iff wireId_eq_iff a b b).2.2.2

/-- C7: in a finite list of `WireId`s with pairwise distinct `(location, index)`
pairs no two elements are equal under `operator==` and no two are
order-equivalent under `operator<`, so that keeping one element per class
keeps the whole list; the list sorted by `operator<` is a strictly increasing
rearrangement of it, and the `z_order` codes of consecutive locations in it
are non-decreasing. -/
theorem wire_list_distinct_sorted (l : List WireId)
    (hd : l.Pairwise (fun a b => (a.location, a.index) ≠ (b.location, b.index))) :
    l.Pairwise (fun a b => a.eq b = false)
      ∧ l.Pairwise (fun a b => ¬ (a.lt b = false ∧ b.lt a = false))
      ∧ (l.pwFilter (fun a b => a.eq b = false)).length = l.length
      ∧ (l.pwFilter (fun a b => ¬ (a.lt b = false ∧ b.lt a = false))).length = l.length
      ∧ (l.insertionSort (fun a b => b.lt a = false)).Perm l
      ∧ (l.insertionSort (fun a b => b.lt a = false)).Sorted (fun a b => a.lt b = true)
      ∧ (l.insertionSort (fun a b => b.lt a = false)).Chain'
          (fun a b => a.location.z_order ≤ b.location.z_order) := by
  have heq : l.Pairwise (fun a b => a.eq b = false) := by
    refine hd.imp ?_
    intro a b hne
    rw [← Bool.not_eq_true, wireId_eq_iff_eq]
    rintro rfl
    exact hne rfl
  have hequiv : l.Pairwise (fun a b => ¬ (a.lt b = false ∧ b.lt a = false)) := by
    refine heq.imp ?_
    intro a b hne h
    rw [(wireId_equiv_iff_eq a b).mp h] at hne
    exact Bool.noConfusion hne
  haveI : IsTotal WireId (fun a b => b.lt a = false) := ⟨wireId_not_lt_total⟩
  haveI : IsTrans WireId (fun a b => b.lt a = false) := ⟨wireId_not_lt_trans⟩
  have hperm := List.perm_insertionSort (fun a b : WireId => b.lt a = false) l
  have hsorted := List.sorted_insertionSort (fun a b : WireId => b.lt a = false) l
  have hequiv' : (l.insertionSort (fun a b => b.lt a = false)).Pairwise
      (fun a b => ¬ (a.lt b = false ∧ b.lt a = false)) :=
    (List.Perm.pairwise_iff (fun {a b} h h' => h ⟨h'.2, h'.1⟩) hperm).mpr hequiv
  refine ⟨heq, hequiv, ?_, ?_, hperm, ?_, ?_⟩
  · rw [List.pwFilter_eq_self.mpr heq]
  · rw [List.pwFilter_eq_self.mpr hequiv]
  · refine (List.Pairwise.and hsorted hequiv').imp ?_
    intro a b h
    by_contra hlt
    exact h.2 ⟨by simpa using hlt, h.1⟩
  · exact (List.Pairwise.imp (fun {a b} h => wireId_z_order_le_of_not_lt a b h) hsorted).chain'

/-- An instance of C7: three wires, two of them on the tile `(0, 0)`, listed
out of order; sorting puts the sentinel tile first. -/
theorem wire_list_distinct_sorted_witness :
    ([WireId.mk (Location.mk (toInt16 0) (toInt16 0)) (toInt32 5),
        WireId.mk Location.default (toInt32 1),
        WireId.mk (Location.mk (toInt16 0) (toInt16 0)) (toInt32 2)].Pairwise
          (fun a b => (a.location, a.index) ≠ (b.location, b.index)))
      ∧ ([WireId.mk (Location.mk (toInt16 0) (toInt16 0)) (toInt32 5),
        WireId.mk Location.default (toInt32 1),
        WireId.mk (Location.mk (toInt16 0) (toInt16 0)) (toInt32 2)].insertionSort
          (fun a b => b.lt a = false)).Chain'
          (fun a b => a.location.z_order ≤ b.location.z_order) :=
  ⟨by decide,
    (wire_list_distinct_sorted
      [WireId.mk (Location.mk (toInt16 0) (toInt16 0)) (toInt32 5),
        WireId.mk Location.default (toInt32 1),
        WireId.mk (Location.mk (toInt16 0) (toInt16 0)) (toInt32 2)] (by decide)).2.2.2.2.2.2⟩

/-! ## The enumeration `ConstIds` -/

theorem enumValues_getElem? {α : Type} (es : List α) (m : Int) (i : Nat) :
    (enumValues es m)[i]? = es[i]?.map (fun e => (e, m + i)) := by
  induction es generalizing m i with
  | nil => simp [enumValues]
  | cons e es ih =>
    cases i with
    | zero => simp [enumValues]
    | succ i =>
      simp only [enumValues, List.getElem?_cons_succ, ih]
      congr 1
      funext e
      push_cast
      congr 1
      ring

theorem lookup_enumValues_cons {α : Type} [DecidableEq α] (e e' : α) (es : List α) (m : Int) :
    List.lookup e (enumValues (e' :: es) m)
      = if e = e' then some m else List.lookup e (enumValues es (m + 1)) := by
  by_cases h : e = e'
  · simp [enumValues, List.lookup_cons, h]
  · have hb : (e == e') = false := by simpa using h
    rw [if_neg h, enumValues, List.lookup_cons, hb]

theorem lookup_count (cs : List String) (m : Int) :
    List.lookup ConstIdName.DB_CONST_ID_COUNT
      (enumValues (cs.map ConstIdName.ID ++ [ConstIdName.DB_CONST_ID_COUNT]) m)
      = some (m + cs.length) := by
  induction cs generalizing m with
  | nil => simp [lookup_enumValues_cons]
  | cons c cs ih =>
    rw [List.map_cons, List.cons_append, lookup_enumValues_cons, if_neg (by simp), ih,
      List.length_cons]
    push_cast
    congr 1
    ring

theorem lookup_name (cs : List String) (hnd : cs.Nodup) (m : Int) (k : Nat)
    (hk : k < cs.length) :
    List.lookup (ConstIdName.ID cs[k])
      (enumValues (cs.map ConstIdName.ID ++ [ConstIdName.DB_CONST_ID_COUNT]) m)
      = some (m + k) := by
  induction cs generalizing m k with
  | nil => simp at hk
  | cons c cs ih =>
    rw [List.map_cons, List.cons_append, lookup_enumValues_cons]
    cases k with
    | zero => simp
    | succ k =>
      have hk' : k < cs.length := by simpa using hk
      have hne : cs[k] ≠ c := by
        intro h
        have hmem : c ∈ cs := h ▸ List.getElem_mem hk'
        exact (List.nodup_cons.mp hnd).1 hmem
      rw [List.getElem_cons_succ, if_neg (by simpa using hne),
        ih (List.nodup_cons.mp hnd).2 (m + 1) k hk']
      push_cast
      congr 1
      ring

theorem constIds_value_name (constids : List String) (hnd : constids.Nodup) (k : Nat)
    (hk : k < constids.length) :
    ConstIds.value constids (ConstIdName.ID constids[k]) = some ((k : Int) + 1) := by
  rw [ConstIds.value, ConstIds, ConstIds.enumerators, lookup_enumValues_cons,
    if_neg (by simp), lookup_name constids hnd (0 + 1) k hk]
  congr 1
  ring

/-- C8: `enum ConstIds` numbers the names of `constids.inc` densely from zero:
`ID_NONE` is 0, the enumerator in position `k` (1-based) is the one of the
`k`-th name and has the value `k`, `DB_CONST_ID_COUNT` is the number of names
plus one; for a duplicate-free list every name has the value of its position,
distinct names get distinct handles, there are as many distinct handles as
names, and `id_<name>` wraps exactly the integer `ID_<name>`. -/
theorem constids_dense (constids : List String) :
    ConstIds.value constids ConstIdName.ID_NONE = some 0
      ∧ (∀ (k : Nat) (hk : k < constids.length),
          (ConstIds constids)[k + 1]? = some (ConstIdName.ID constids[k], (k : Int) + 1))
      ∧ ConstIds.value constids ConstIdName.DB_CONST_ID_COUNT
          = some ((constids.length : Int) + 1)
      ∧ (constids.Nodup →
          (∀ (k : Nat) (hk : k < constids.length),
              ConstIds.value constids (ConstIdName.ID constids[k]) = some ((k : Int) + 1))
            ∧ (∀ s ∈ constids, ∀ t ∈ constids, s ≠ t → id_ constids s ≠ id_ constids t)
            ∧ ((constids.map (id_ constids)).dedup).length = constids.length
            ∧ (∀ t ∈ constids, ∃ n : Int,
                ConstIds.value constids (ConstIdName.ID t) = some n
                  ∧ id_ constids t = some (IdString.mk n))) := by
  have hinj : constids.Nodup → ∀ s ∈ constids, ∀ t ∈ constids,
      id_ constids s = id_ constids t → s = t := by
    intro hnd s hs t ht heq
    obtain ⟨i, hi, rfl⟩ := List.getElem_of_mem hs
    obtain ⟨j, hj, rfl⟩ := List.getElem_of_mem ht
    simp only [id_, constIds_value_name constids hnd i hi, constIds_value_name constids hnd j hj,
      Option.map_some', Option.some.injEq, IdString.mk.injEq] at heq
    have hij : i = j := by omega
    subst hij
    rfl
  refine ⟨?_, ?_, ?_, fun hnd => ⟨constIds_value_name constids hnd, ?_, ?_, ?_⟩⟩
  · simp [ConstIds.value, ConstIds, ConstIds.enumerators, enumValues, List.lookup]
  · intro k hk
    rw [ConstIds, enumValues_getElem?]
    simp only [ConstIds.enumerators, List.getElem?_cons_succ]
    rw [List.getElem?_append_left (by simpa using hk)]
    simp [List.getElem?_map, List.getElem?_eq_getElem hk]
  · rw [ConstIds.value, ConstIds, ConstIds.enumerators, lookup_enumValues_cons,
      if_neg (by simp), lookup_count]
    congr 1
    ring
  · intro s hs t ht hne heq
    exact hne (hinj hnd s hs t ht heq)
  · rw [List.Nodup.dedup (List.Nodup.map_on (fun s hs t ht h => hinj hnd s hs t ht h) hnd),
      List.length_map]
  · intro t ht
    obtain ⟨i, hi, rfl⟩ := List.getElem_of_mem ht
    exact ⟨(i : Int) + 1, constIds_value_name constids hnd i hi,
      by simp [id_, constIds_value_name constids hnd i hi]⟩

/-- An instance of C8 on a list of three names: the third name has the value 3
and its constant wraps 3. -/
theorem constids_dense_witness :
    ["LUT4", "TRELLIS_FF", "CLK"].Nodup
      ∧ ConstIds.value ["LUT4", "TRELLIS_FF", "CLK"] (ConstIdName.ID "CLK") = some 3
      ∧ id_ ["LUT4", "TRELLIS_FF", "CLK"] "LUT4" ≠ id_ ["LUT4", "TRELLIS_FF", "CLK"] "CLK" :=
  ⟨by decide,
    ((constids_dense ["LUT4", "TRELLIS_FF", "CLK"]).2.2.2 (by decide)).1 2 (by decide),
    ((constids_dense ["LUT4", "TRELLIS_FF", "CLK"]).2.2.2 (by decide)).2.1
      "LUT4" (by decide) "CLK" (by decide) (by decide)⟩

/-! ## The cell record -/

/-- C9: writing `is_pdp`, `is_output_a_registered` and `is_output_b_registered`
of `ramInfo` makes these three members read back the written values and
leaves `sliceInfo`, `multInfo`, `ramInfo.regmode_timing_id` and the base
sub-object as they were; every single assignment to a member of one
sub-record leaves the other two sub-records unchanged. -/
theorem ramInfo_write_frame {BaseClusterInfo : Type} (c : ArchCellInfo BaseClusterInfo)
    (p a b : Bool) :
    (((c.write (FieldWrite.ram_is_pdp p)).write
          (FieldWrite.ram_is_output_a_registered a)).write
          (FieldWrite.ram_is_output_b_registered b)).ramInfo
        = { is_pdp := p, is_output_a_registered := a, is_output_b_registered := b,
            regmode_timing_id := c.ramInfo.regmode_timing_id }
      ∧ (((c.write (FieldWrite.ram_is_pdp p)).write
          (FieldWrite.ram_is_output_a_registered a)).write
          (FieldWrite.ram_is_output_b_registered b)).sliceInfo = c.sliceInfo
      ∧ (((c.write (FieldWrite.ram_is_pdp p)).write
          (FieldWrite.ram_is_output_a_registered a)).write
          (FieldWrite.ram_is_output_b_registered b)).multInfo = c.multInfo
      ∧ (((c.write (FieldWrite.ram_is_pdp p)).write
          (FieldWrite.ram_is_output_a_registered a)).write
          (FieldWrite.ram_is_output_b_registered b)).base = c.base
      ∧ (∀ w : FieldWrite, w.target = SubRecord.ramInfo →
          (c.write w).sliceInfo = c.sliceInfo ∧ (c.write w).multInfo = c.multInfo)
      ∧ (∀ w : FieldWrite, w.target = SubRecord.sliceInfo →
          (c.write w).ramInfo = c.ramInfo ∧ (c.write w).multInfo = c.multInfo)
      ∧ (∀ w : FieldWrite, w.target = SubRecord.multInfo →
          (c.write w).sliceInfo = c.sliceInfo ∧ (c.write w).ramInfo = c.ramInfo) := by
  refine ⟨rfl, rfl, rfl, rfl, ?_, ?_, ?_⟩ <;>
    · intro w hw
      cases w <;> first | exact ⟨rfl, rfl⟩ | exact SubRecord.noConfusion hw

/-- An instance of C9: the memory record of the scenario (pseudo dual port,
output A registered, output B not) on a zeroed cell record, and one write to
`sliceInfo.sd0`. -/
theorem ramInfo_write_frame_witness :
    ((((ArchCellInfo.zeroStorage ()).write (FieldWrite.ram_is_pdp true)).write
          (FieldWrite.ram_is_output_a_registered true)).write
          (FieldWrite.ram_is_output_b_registered false)).sliceInfo
        = (ArchCellInfo.zeroStorage ()).sliceInfo
      ∧ (((ArchCellInfo.zeroStorage ()).write (FieldWrite.slice_sd0 (toInt32 3))).ramInfo
          = (ArchCellInfo.zeroStorage ()).ramInfo
        ∧ ((ArchCellInfo.zeroStorage ()).write (FieldWrite.slice_sd0 (toInt32 3))).multInfo
          = (ArchCellInfo.zeroStorage ()).multInfo) :=
  ⟨(ramInfo_write_frame (ArchCellInfo.zeroStorage ()) true true false).2.1,
    (ramInfo_write_frame (ArchCellInfo.zeroStorage ()) true true false).2.2.2.2.2.1
      (FieldWrite.slice_sd0 (toInt32 3)) rfl⟩

/-- C10, as stated, fails: the default constructor run on storage whose
`using_dff` byte reads true leaves a record that is not all-zero. -/
theorem defaultInit_not_allZero :
    ¬ (ArchCellInfo.defaultInit ()
        ((ArchCellInfo.zeroStorage ()).write (FieldWrite.slice_using_dff true))).allZero := by
  intro h
  exact Bool.noConfusion h.1

/-- C10, amended: a value-initialised `ArchCellInfo` is all-zero; a
default-initialised one has its seven handles at "none", while its flags and
`sd0`, `sd1` are whatever the storage held. -/
theorem archCellInfo_init {BaseClusterInfo : Type} (base : BaseClusterInfo)
    (storage : ArchCellInfo BaseClusterInfo) :
    (ArchCellInfo.valueInit base).allZero
      ∧ ((ArchCellInfo.defaultInit base storage).sliceInfo.clk_sig.index = 0
        ∧ (ArchCellInfo.defaultInit base storage).sliceInfo.lsr_sig.index = 0
        ∧ (ArchCellInfo.defaultInit base storage).sliceInfo.clkmux.index = 0
        ∧ (ArchCellInfo.defaultInit base storage).sliceInfo.lsrmux.index = 0
        ∧ (ArchCellInfo.defaultInit base storage).sliceInfo.srmode.index = 0
        ∧ (ArchCellInfo.defaultInit base storage).ramInfo.regmode_timing_id.index = 0
        ∧ (ArchCellInfo.defaultInit base storage).multInfo.timing_id.index = 0)
      ∧ ((ArchCellInfo.defaultInit base storage).sliceInfo.using_dff
            = storage.sliceInfo.using_dff
        ∧ (ArchCellInfo.defaultInit base storage).sliceInfo.has_l6mux
            = storage.sliceInfo.has_l6mux
        ∧ (ArchCellInfo.defaultInit base storage).sliceInfo.is_carry
            = storage.sliceInfo.is_carry
        ∧ (ArchCellInfo.defaultInit base storage).sliceInfo.sd0 = storage.sliceInfo.sd0
        ∧ (ArchCellInfo.defaultInit base storage).sliceInfo.sd1 = storage.sliceInfo.sd1
        ∧ (ArchCellInfo.defaultInit base storage).ramInfo.is_pdp = storage.ramInfo.is_pdp
        ∧ (ArchCellInfo.defaultInit base storage).ramInfo.is_output_a_registered
            = storage.ramInfo.is_output_a_registered
        ∧ (ArchCellInfo.defaultInit base storage).ramInfo.is_output_b_registered
            = storage.ramInfo.is_output_b_registered
        ∧ (ArchCellInfo.defaultInit base storage).multInfo.is_clocked
            = storage.multInfo.is_clocked) := by
  refine ⟨?_, ⟨rfl, rfl, rfl, rfl, rfl, rfl, rfl⟩, ⟨rfl, rfl, rfl, rfl, rfl, rfl, rfl, rfl, rfl⟩⟩
  unfold ArchCellInfo.allZero
  exact ⟨rfl, rfl, rfl, rfl, rfl, rfl, rfl, rfl, rfl, rfl, rfl, rfl, rfl, rfl, rfl, rfl⟩

/-! ## Construction -/

/-- C11: default construction yields the unassigned sentinel: a `Location` has
`x == -1` and `y == -1`; a `BelId`, `WireId` or `PipId` has location
`(-1, -1)` and index `-1`; a `GroupId` has type `TYPE_NONE` and a `DecalId`
has type `TYPE_NONE`, `z == 0` and `active == false`, both at `(-1, -1)`. -/
theorem default_is_sentinel :
    (Location.default.x.val = -1 ∧ Location.default.y.val = -1)
      ∧ (BelId.default.location = Location.default ∧ BelId.default.index.val = -1)
      ∧ (WireId.default.location = Location.default ∧ WireId.default.index.val = -1)
      ∧ (PipId.default.location = Location.default ∧ PipId.default.index.val = -1)
      ∧ (GroupId.default.type = GroupType.TYPE_NONE
        ∧ GroupId.default.location = Location.default)
      ∧ (DecalId.default.type = DecalType.TYPE_NONE ∧ DecalId.default.z.val = 0
        ∧ DecalId.default.active = false ∧ DecalId.default.location = Location.default) := by
  refine ⟨⟨by decide, by decide⟩, ⟨rfl, by decide⟩, ⟨rfl, by decide⟩, ⟨rfl, by decide⟩,
    ⟨rfl, rfl⟩, ⟨rfl, rfl, rfl, rfl⟩⟩

theorem toInt16_of_range (i : Int) (hlo : INT16_MIN ≤ i) (hhi : i ≤ INT16_MAX) :
    (toInt16 i).val = i := by
  have h1 : (-32768 : Int) ≤ i := hlo
  have h2 : i ≤ (32767 : Int) := hhi
  show (i + 32768) % 65536 - 32768 = i
  omega

theorem toInt32_of_range (i : Int) (hlo : -2147483648 ≤ i) (hhi : i ≤ 2147483647) :
    (toInt32 i).val = i := by
  show (i + 2147483648) % 4294967296 - 2147483648 = i
  omega

/-- C12: coordinate addition is component-wise: when both component sums lie
in the 16-bit signed range, `a + b` has `x == a.x + b.x` and
`y == a.y + b.y`. -/
theorem location_add_componentwise (a b : Location)
    (hx : INT16_MIN ≤ a.x.val + b.x.val ∧ a.x.val + b.x.val ≤ INT16_MAX)
    (hy : INT16_MIN ≤ a.y.val + b.y.val ∧ a.y.val + b.y.val ≤ INT16_MAX) :
    (a.add b).x.val = a.x.val + b.x.val ∧ (a.add b).y.val = a.y.val + b.y.val :=
  ⟨toInt16_of_range _ hx.1 hx.2, toInt16_of_range _ hy.1 hy.2⟩

/-- An instance of C12: the tile `(10, 20)` moved by the offset `(-3, 4)`. -/
theorem location_add_componentwise_witness :
    ((Location.mk (toInt16 10) (toInt16 20)).add (Location.mk (toInt16 (-3)) (toInt16 4))).x.val
        = (toInt16 10).val + (toInt16 (-3)).val
      ∧ ((Location.mk (toInt16 10) (toInt16 20)).add
          (Location.mk (toInt16 (-3)) (toInt16 4))).y.val
        = (toInt16 20).val + (toInt16 4).val :=
  location_add_componentwise (Location.mk (toInt16 10) (toInt16 20))
    (Location.mk (toInt16 (-3)) (toInt16 4)) (by decide) (by decide)

/-- C13: the sentinel `Location(-1, -1)` is neither the least nor the greatest
element of the coordinate order: some location is below it and some location
is above it. -/
theorem sentinel_not_extreme :
    (∃ a : Location, a.lt Location.default = true)
      ∧ (∃ b : Location, Location.default.lt b = true) :=
  ⟨⟨Location.mk (toInt16 (-32768)) (toInt16 (-32768)), by decide⟩,
    ⟨Location.mk (toInt16 0) (toInt16 0), by decide⟩⟩

/-- C14: construction round-trips: `Location(x, y)` and
`Location(LocationPOD{x, y})` read back `x` and `y`, also when the arguments
are given as integers of the 16-bit signed range, and a `BelId`, `WireId` or
`PipId` built from a location and an index reads back both; this covers the
sentinel `(-1, -1)` with index `-1`. -/
theorem construction_roundtrip (x y : int16_t) (l : Location) (n : int32_t) :
    ((Location.mk x y).x = x ∧ (Location.mk x y).y = y)
      ∧ ((Location.ofPOD (LocationPOD.mk x y)).x = x
        ∧ (Location.ofPOD (LocationPOD.mk x y)).y = y)
      ∧ ((Location.mk (toInt16 x.val) (toInt16 y.val)).x.val = x.val
        ∧ (Location.mk (toInt16 x.val) (toInt16 y.val)).y.val = y.val)
      ∧ ((BelId.mk l n).location = l ∧ (BelId.mk l n).index = n)
      ∧ ((WireId.mk l n).location = l ∧ (WireId.mk l n).index = n)
      ∧ ((PipId.mk l n).location = l ∧ (PipId.mk l n).index = n)
      ∧ ((BelId.mk l (toInt32 n.val)).index.val = n.val
        ∧ (WireId.mk l (toInt32 n.val)).index.val = n.val
        ∧ (PipId.mk l (toInt32 n.val)).index.val = n.val) :=
  ⟨⟨rfl, rfl⟩, ⟨rfl, rfl⟩,
    ⟨toInt16_of_range _ x.property.1 x.property.2, toInt16_of_range _ y.property.1 y.property.2⟩,
    ⟨rfl, rfl⟩, ⟨rfl, rfl⟩, ⟨rfl, rfl⟩,
    ⟨toInt32_of_range _ n.property.1 n.property.2, toInt32_of_range _ n.property.1 n.property.2,
      toInt32_of_range _ n.property.1 n.property.2⟩⟩

/-- An instance of C14 at the sentinel: a wire identifier built from the
default location and index `-1` reads back both. -/
theorem construction_roundtrip_witness :
    (WireId.mk Location.default (toInt32 (-1))).location = Location.default
      ∧ (WireId.mk Location.default (toInt32 (-1))).index = toInt32 (-1) :=
  (construction_roundtrip (toInt16 (-1)) (toInt16 (-1)) Location.default
    (toInt32 (-1))).2.2.2.2.1

/-! ## Interleaving, inequality and the decal hash -/

/-- C15: for a 16-bit input `v`, `interleave(v)` spreads the bits of `v` into the
even positions of a 32-bit word: bit `2i` is bit `i` of `v` for `i` in
`0..15`, every odd bit is 0, hence `interleave(v) < 2^31`, and `interleave`
is injective on 16-bit inputs. -/
theorem interleave_spreads (v : Nat) (hv : v < 65536) :
    (∀ i, i < 16 → (interleave v).testBit (2 * i) = v.testBit i)
      ∧ (∀ i, i < 16 → (interleave v).testBit (2 * i + 1) = false)
      ∧ interleave v < 2 ^ 31
      ∧ (∀ u, u < 65536 → interleave u = interleave v → u = v) := by
  refine ⟨?_, ?_, interleave_lt v hv, ?_⟩
  · intro i hi
    rw [interleave_testBit v hv]
    have h1 : 2 * i < 32 := by omega
    have h2 : (2 * i) % 2 = 0 := by omega
    have h3 : (2 * i) / 2 = i := by omega
    simp [h1, h2, h3]
  · intro i _
    rw [interleave_testBit v hv]
    have h2 : ¬ (2 * i + 1) % 2 = 0 := by omega
    simp [h2]
  · intro u hu h
    apply Nat.eq_of_testBit_eq
    intro i
    by_cases hi : i < 16
    · have hb : (interleave u).testBit (2 * i) = (interleave v).testBit (2 * i) := by rw [h]
      rw [interleave_testBit u hu, interleave_testBit v hv] at hb
      have h1 : 2 * i < 32 := by omega
      have h2 : (2 * i) % 2 = 0 := by omega
      have h3 : (2 * i) / 2 = i := by omega
      simpa [h1, h2, h3] using hb
    · rw [testBit_ge16 u i hu (by omega), testBit_ge16 v i hv (by omega)]

/-- An instance of C15 at the input `0xA5C3`: its top bit lands on bit 30, and
bit 31 stays clear. -/
theorem interleave_spreads_witness :
    0xA5C3 < 65536
      ∧ (interleave 0xA5C3).testBit 30 = Nat.testBit 0xA5C3 15
      ∧ (interleave 0xA5C3).testBit 31 = false :=
  ⟨by decide, (interleave_spreads 0xA5C3 (by decide)).1 15 (by decide),
    (interleave_spreads 0xA5C3 (by decide)).2.1 15 (by decide)⟩

theorem location_ne_eq_not (a b : Location) : a.ne b = !a.eq b := by
  simp only [Location.ne, Location.eq, Bool.not_and]
  by_cases hx : a.x.val = b.x.val <;> by_cases hy : a.y.val = b.y.val <;> simp [hx, hy]

/-- C19: on `Location`, `BelId`, `WireId`, `PipId`, `GroupId` and `DecalId`,
`operator!=` is the exact negation of `operator==`: `a != b` is true if and
only if `a == b` is false. -/
theorem ne_is_not_eq (l l' : Location) (b b' : BelId) (w w' : WireId) (p p' : PipId)
    (g g' : GroupId) (d d' : DecalId) :
    (l.ne l' = true ↔ l.eq l' = false)
      ∧ (b.ne b' = true ↔ b.eq b' = false)
      ∧ (w.ne w' = true ↔ w.eq w' = false)
      ∧ (p.ne p' = true ↔ p.eq p' = false)
      ∧ (g.ne g' = true ↔ g.eq g' = false)
      ∧ (d.ne d' = true ↔ d.eq d' = false) := by
  refine ⟨?_, ?_, ?_, ?_, ?_, ?_⟩
  · rw [location_ne_eq_not]; simp
  · simp only [BelId.ne, BelId.eq, location_ne_eq_not]
    by_cases h1 : b.index.val = b'.index.val <;> simp [h1]
  · simp only [WireId.ne, WireId.eq, location_ne_eq_not]
    by_cases h1 : w.index.val = w'.index.val <;> simp [h1]
  · simp only [PipId.ne, PipId.eq, location_ne_eq_not]
    by_cases h1 : p.index.val = p'.index.val <;> simp [h1]
  · simp only [GroupId.ne, GroupId.eq, location_ne_eq_not]
    by_cases h1 : g.type.toInt = g'.type.toInt <;> simp [h1]
  · simp only [DecalId.ne, DecalId.eq, location_ne_eq_not]
    by_cases h1 : d.type.toInt = d'.type.toInt <;> by_cases h2 : d.z.val = d'.z.val <;>
      by_cases h3 : d.active = d'.active <;> simp [h1, h2, h3]

/-- An instance of C19: two sites of one tile with different indices are
unequal under `operator!=`. -/
theorem ne_is_not_eq_witness :
    (BelId.mk Location.default (toInt32 1)).ne (BelId.mk Location.default (toInt32 2)) = true :=
  (ne_is_not_eq Location.default Location.default
    (BelId.mk Location.default (toInt32 1)) (BelId.mk Location.default (toInt32 2))
    WireId.default WireId.default PipId.default PipId.default GroupId.default GroupId.default
    DecalId.default DecalId.default).2.1.mpr (by decide)

/-- C20: `DecalId::hash` does not depend on the active flag: decals that agree
on type, location and `z` and differ in `active` are unequal under
`operator!=` yet have the same hash, for any `mkhash`; the hash is determined
by `location.x`, `location.y`, `z` and `type`. -/
theorem decal_hash_ignores_active (mkhash : Nat → Nat → Nat) (d e : DecalId) :
    (d.type = e.type → d.location = e.location → d.z = e.z → d.active ≠ e.active →
        d.ne e = true ∧ d.hash mkhash = e.hash mkhash)
      ∧ (d.location.x = e.location.x → d.location.y = e.location.y → d.z = e.z →
        d.type = e.type → d.hash mkhash = e.hash mkhash) := by
  constructor
  · intro ht hl hz ha
    constructor
    · simp [DecalId.ne, ha]
    · simp only [DecalId.hash, ht, hl, hz]
  · intro hx hy hz ht
    simp only [DecalId.hash, Location.hash, hx, hy, hz, ht]

/-- An instance of C20 with the combinator `a * 33 + b`: the default decal and
the same decal marked active. -/
theorem decal_hash_ignores_active_witness :
    DecalId.default.ne { DecalId.default with active := true } = true
      ∧ DecalId.default.hash (fun a b => a * 33 + b)
        = ({ DecalId.default with active := true } : DecalId).hash (fun a b => a * 33 + b) :=
  (decal_hash_ignores_active (fun a b => a * 33 + b) DecalId.default
    { DecalId.default with active := true }).1 rfl rfl rfl (by decide)

/-! ## Arithmetic of the Morton code -/

theorem spreadBits_eq_sum (k v : Nat) :
    spreadBits k v = ∑ i in Finset.range k, (v / 2 ^ i % 2) * 4 ^ i := by
  induction k generalizing v with
  | zero => simp [spreadBits]
  | succ k ih =>
    rw [spreadBits, ih, Finset.sum_range_succ', Finset.mul_sum]
    simp only [pow_zero, Nat.div_one, mul_one]
    rw [add_comm]
    congr 1
    apply Finset.sum_congr rfl
    intro i _
    rw [Nat.div_div_eq_div_mul, pow_succ, pow_succ, mul_comm (2 ^ i) 2]
    ring

theorem spreadBits_zero (k : Nat) : spreadBits k 0 = 0 := by
  induction k with
  | zero => rfl
  | succ k ih => simp [spreadBits, ih]

theorem spreadBits_bound (k v : Nat) : 3 * spreadBits k v + 1 ≤ 4 ^ k := by
  induction k generalizing v with
  | zero => simp [spreadBits]
  | succ k ih =>
    have h := ih (v / 2)
    rw [spreadBits, pow_succ]
    omega

theorem spreadBits_lt (k u v : Nat) (huv : u < v) (hv : v < 2 ^ k) :
    spreadBits k u < spreadBits k v := by
  induction k generalizing u v with
  | zero =>
    simp at hv
    omega
  | succ k ih =>
    rw [pow_succ] at hv
    rw [spreadBits, spreadBits]
    rcases Nat.lt_or_ge (u / 2) (v / 2) with h | h
    · have := ih (u / 2) (v / 2) h (by omega)
      omega
    · have h2 : u / 2 = v / 2 := by omega
      rw [h2]
      omega

theorem spreadBits_le (k u v : Nat) (huv : u ≤ v) (hv : v < 2 ^ k) :
    spreadBits k u ≤ spreadBits k v := by
  rcases Nat.lt_or_ge u v with h | h
  · exact le_of_lt (spreadBits_lt k u v h hv)
  · have : u = v := by omega
    rw [this]

theorem spreadBits_block (k m q d : Nat) (hd : d < 2 ^ k) :
    spreadBits (k + m) (2 ^ k * q + d) = spreadBits k d + 4 ^ k * spreadBits m q := by
  induction k generalizing d with
  | zero =>
    have : d = 0 := by simpa using hd
    subst this
    simp [spreadBits]
  | succ k ih =>
    rw [pow_succ] at hd
    have h2 : 2 ^ (k + 1) * q = 2 * (2 ^ k * q) := by ring
    have hmod : (2 ^ (k + 1) * q + d) % 2 = d % 2 := by rw [h2]; omega
    have hdiv : (2 ^ (k + 1) * q + d) / 2 = 2 ^ k * q + d / 2 := by rw [h2]; omega
    rw [show k + 1 + m = (k + m) + 1 from by ring, spreadBits, hmod, hdiv,
      ih (d / 2) (by omega), spreadBits, pow_succ]
    ring

theorem spreadBits_surj (k n : Nat) (hn : n < 4 ^ k) :
    ∃ dx dy, dx < 2 ^ k ∧ dy < 2 ^ k ∧ 2 * spreadBits k dx + spreadBits k dy = n := by
  induction k generalizing n with
  | zero =>
    have : n = 0 := by simpa using hn
    exact ⟨0, 0, by simp, by simp, by simp [spreadBits, this]⟩
  | succ k ih =>
    rw [pow_succ] at hn
    obtain ⟨dx, dy, hdx, hdy, h⟩ := ih (n / 4) (by omega)
    refine ⟨n % 4 / 2 + 2 * dx, n % 2 + 2 * dy, ?_, ?_, ?_⟩
    · rw [pow_succ]; omega
    · rw [pow_succ]; omega
    · have h1 : (n % 4 / 2 + 2 * dx) % 2 = n % 4 / 2 := by omega
      have h2 : (n % 4 / 2 + 2 * dx) / 2 = dx := by omega
      have h3 : (n % 2 + 2 * dy) % 2 = n % 2 := by omega
      have h4 : (n % 2 + 2 * dy) / 2 = dy := by omega
      rw [spreadBits, spreadBits, h1, h2, h3, h4]
      omega

theorem z_order_eq_spread (a : Location) :
    a.z_order = 2 * spreadBits 16 (toUInt16 (a.x.val - INT16_MIN))
      + spreadBits 16 (toUInt16 (a.y.val - INT16_MIN)) := by
  have h := mod_two_pow_eq_sum a.z_order 32
  rw [Nat.mod_eq_of_lt (z_order_lt a), show 32 = 2 * 16 from rfl, sum_range_double] at h
  rw [spreadBits_eq_sum, spreadBits_eq_sum, Finset.mul_sum, ← Finset.sum_add_distrib]
  refine h.trans (Finset.sum_congr rfl ?_)
  intro i hi
  have hi16 : i < 16 := Finset.mem_range.mp hi
  rw [(z_order_div_mod a i hi16).1, (z_order_div_mod a i hi16).2, pow_succ, pow_mul]
  norm_num
  ring

theorem bias_le (a b : int16_t) (h : a.val ≤ b.val) :
    toUInt16 (a.val - INT16_MIN) ≤ toUInt16 (b.val - INT16_MIN) := by
  have ha := (toUInt16_bias a).1
  have hb := (toUInt16_bias b).1
  omega

/-- Component-wise dominance implies a smaller Morton code. -/
theorem z_order_lt_of_le (a b : Location) (hx : a.x.val ≤ b.x.val) (hy : a.y.val ≤ b.y.val)
    (hne : a ≠ b) : a.z_order < b.z_order := by
  have hX := bias_le a.x b.x hx
  have hY := bias_le a.y b.y hy
  have hbX := (toUInt16_bias b.x).2
  have hbY := (toUInt16_bias b.y).2
  have h16 : (65536 : Nat) = 2 ^ 16 := by norm_num
  rw [h16] at hbX hbY
  have hsX := spreadBits_le 16 _ _ hX hbX
  have hsY := spreadBits_le 16 _ _ hY hbY
  rw [z_order_eq_spread a, z_order_eq_spread b]
  by_cases hxe : toUInt16 (a.x.val - INT16_MIN) = toUInt16 (b.x.val - INT16_MIN)
  · by_cases hye : toUInt16 (a.y.val - INT16_MIN) = toUInt16 (b.y.val - INT16_MIN)
    · exfalso
      apply hne
      have h1 := toUInt16_bias_inj a.x b.x hxe
      have h2 := toUInt16_bias_inj a.y b.y hye
      cases a; cases b
      simp_all
    · have := spreadBits_lt 16 _ _ (lt_of_le_of_ne hY hye) hbY
      omega
  · have := spreadBits_lt 16 _ _ (lt_of_le_of_ne hX hxe) hbX
    omega

theorem location_ne_iff (a b : Location) : a.ne b = true ↔ a ≠ b := by
  rw [location_ne_eq_not, Bool.not_eq_true', ← Bool.not_eq_true, location_eq_iff]

/-! ## Dominance, the sentinel and aligned blocks -/

/-- C16: the coordinate order extends component-wise dominance: if
`a.x <= b.x`, `a.y <= b.y` and `a != b` then `a < b`; on a fixed row or
column the order is the numeric order of the varying signed coordinate. -/
theorem z_order_extends_dominance (a b : Location) :
    (a.x.val ≤ b.x.val → a.y.val ≤ b.y.val → a.ne b = true → a.lt b = true)
      ∧ (a.y = b.y → (a.lt b = true ↔ a.x.val < b.x.val))
      ∧ (a.x = b.x → (a.lt b = true ↔ a.y.val < b.y.val)) := by
  have hdom : ∀ p q : Location, p.x.val ≤ q.x.val → p.y.val ≤ q.y.val → p ≠ q →
      p.z_order < q.z_order := z_order_lt_of_le
  refine ⟨?_, ?_, ?_⟩
  · intro hx hy hne
    rw [location_lt_iff]
    exact hdom a b hx hy ((location_ne_iff a b).mp hne)
  · intro hy
    rw [location_lt_iff]
    constructor
    · intro hlt
      by_contra hnot
      have hle : b.x.val ≤ a.x.val := by omega
      by_cases hab : b = a
      · rw [hab] at hlt
        exact lt_irrefl _ hlt
      · have := hdom b a hle (by rw [hy]) hab
        omega
    · intro hlt
      refine hdom a b (le_of_lt hlt) (by rw [hy]) ?_
      intro hab
      rw [hab] at hlt
      exact lt_irrefl _ hlt
  · intro hx
    rw [location_lt_iff]
    constructor
    · intro hlt
      by_contra hnot
      have hle : b.y.val ≤ a.y.val := by omega
      by_cases hab : b = a
      · rw [hab] at hlt
        exact lt_irrefl _ hlt
      · have := hdom b a (by rw [hx]) hle hab
        omega
    · intro hlt
      refine hdom a b (by rw [hx]) (le_of_lt hlt) ?_
      intro hab
      rw [hab] at hlt
      exact lt_irrefl _ hlt

/-- An instance of C16: the tile `(-5, 7)` is dominated by `(2, 7)`, on the row
`y = 7`. -/
theorem z_order_extends_dominance_witness :
    (Location.mk (toInt16 (-5)) (toInt16 7)).lt (Location.mk (toInt16 2) (toInt16 7)) = true :=
  (z_order_extends_dominance (Location.mk (toInt16 (-5)) (toInt16 7))
    (Location.mk (toInt16 2) (toInt16 7))).1 (by decide) (by decide) (by decide)

/-- C17: the sentinel sorts strictly before every valid tile: for `t` with
`t.x >= 0` and `t.y >= 0`, `Location(-1, -1) != t` and `Location(-1, -1) < t`;
a default-constructed `BelId`, `WireId` or `PipId` is strictly less than every
identifier at such a tile, whatever its index. -/
theorem sentinel_before_valid_tiles (t : Location) (hx : 0 ≤ t.x.val) (hy : 0 ≤ t.y.val)
    (i j k : int32_t) :
    Location.default.ne t = true
      ∧ Location.default.lt t = true
      ∧ BelId.default.lt (BelId.mk t i) = true
      ∧ WireId.default.lt (WireId.mk t j) = true
      ∧ PipId.default.lt (PipId.mk t k) = true := by
  have hdx : Location.default.x.val = -1 := by decide
  have hdy : Location.default.y.val = -1 := by decide
  have hne : Location.default ≠ t := by
    intro h
    rw [← h] at hx
    omega
  have hlt : Location.default.z_order < t.z_order :=
    z_order_lt_of_le Location.default t (by omega) (by omega) hne
  refine ⟨(location_ne_iff _ _).mpr hne, (location_lt_iff _ _).mpr hlt, ?_, ?_, ?_⟩
  · exact (belId_lt_iff _ _).mpr (Or.inl hlt)
  · exact (wireId_lt_iff _ _).mpr (Or.inl hlt)
  · exact (pipId_lt_iff _ _).mpr (Or.inl hlt)

/-- An instance of C17 at the tile `(0, 0)`: the default site precedes the site
with the least index there. -/
theorem sentinel_before_valid_tiles_witness :
    BelId.default.lt
      (BelId.mk (Location.mk (toInt16 0) (toInt16 0)) (toInt32 (-2147483648))) = true :=
  (sentinel_before_valid_tiles (Location.mk (toInt16 0) (toInt16 0)) (by decide) (by decide)
    (toInt32 (-2147483648)) (toInt32 0) (toInt32 0)).2.2.1

theorem spreadBits_aligned (k X d : Nat) (hk : k ≤ 16) (hdiv : 2 ^ k ∣ X) (hd : d < 2 ^ k) :
    spreadBits 16 (X + d) = spreadBits 16 X + spreadBits k d := by
  obtain ⟨q, rfl⟩ := hdiv
  have h1 := spreadBits_block k (16 - k) q d hd
  have h0 := spreadBits_block k (16 - k) q 0 (by positivity)
  rw [show k + (16 - k) = 16 from by omega] at h1 h0
  rw [spreadBits_zero, Nat.add_zero] at h0
  rw [h1, h0]
  ring

theorem aligned_add_le (k X : Nat) (hk : k ≤ 16) (hdiv : 2 ^ k ∣ X) (hX : X < 65536) :
    X + 2 ^ k ≤ 65536 := by
  obtain ⟨q, rfl⟩ := hdiv
  have h16 : (65536 : Nat) = 2 ^ k * 2 ^ (16 - k) := by
    rw [← pow_add, show k + (16 - k) = 16 from by omega]
    norm_num
  rw [h16] at hX ⊢
  have hq : q < 2 ^ (16 - k) := Nat.lt_of_mul_lt_mul_left hX
  calc 2 ^ k * q + 2 ^ k = 2 ^ k * (q + 1) := by ring
    _ ≤ 2 ^ k * 2 ^ (16 - k) := Nat.mul_le_mul_left _ hq

theorem z_order_block_offset (k : Nat) (hk : k ≤ 16) (c l : Location)
    (hx : 2 ^ k ∣ toUInt16 (c.x.val - INT16_MIN)) (hy : 2 ^ k ∣ toUInt16 (c.y.val - INT16_MIN))
    (dx dy : Nat) (hdx : dx < 2 ^ k) (hdy : dy < 2 ^ k)
    (hlx : l.x.val = c.x.val + dx) (hly : l.y.val = c.y.val + dy) :
    l.z_order = c.z_order + (2 * spreadBits k dx + spreadBits k dy) := by
  have hXc := (toUInt16_bias c.x).1
  have hYc := (toUInt16_bias c.y).1
  have hXl := (toUInt16_bias l.x).1
  have hYl := (toUInt16_bias l.y).1
  have h1 : toUInt16 (l.x.val - INT16_MIN) = toUInt16 (c.x.val - INT16_MIN) + dx := by omega
  have h2 : toUInt16 (l.y.val - INT16_MIN) = toUInt16 (c.y.val - INT16_MIN) + dy := by omega
  rw [z_order_eq_spread l, z_order_eq_spread c, h1, h2,
    spreadBits_aligned k _ dx hk hx hdx, spreadBits_aligned k _ dy hk hy hdy]
  ring

/-- C18: Z-order locality of aligned blocks: for `k` in `0..16` and a corner `c`
whose biased coordinates are both divisible by `2^k`, a location lies in the
`2^k` by `2^k` block at `c` exactly when its code lies between `z_order(c)` and
`z_order(c) + 4^k - 1`, and every integer of that range is the code of a
location of the block. -/
theorem z_order_aligned_block (k : Nat) (hk : k ≤ 16) (c : Location)
    (hx : (2 : Int) ^ k ∣ c.x.val - INT16_MIN) (hy : (2 : Int) ^ k ∣ c.y.val - INT16_MIN) :
    (∀ l : Location,
        (c.x.val ≤ l.x.val ∧ l.x.val < c.x.val + (2 : Int) ^ k
            ∧ c.y.val ≤ l.y.val ∧ l.y.val < c.y.val + (2 : Int) ^ k)
          ↔ (c.z_order ≤ l.z_order ∧ l.z_order < c.z_order + 4 ^ k))
      ∧ (∀ n : Nat, c.z_order ≤ n → n < c.z_order + 4 ^ k →
          ∃ l : Location,
            (c.x.val ≤ l.x.val ∧ l.x.val < c.x.val + (2 : Int) ^ k
              ∧ c.y.val ≤ l.y.val ∧ l.y.val < c.y.val + (2 : Int) ^ k)
            ∧ l.z_order = n) := by
  have hP : ((2 ^ k : Nat) : Int) = (2 : Int) ^ k := by push_cast; rfl
  have hmin : INT16_MIN = -32768 := rfl
  have hmax : INT16_MAX = 32767 := rfl
  obtain ⟨hXc, hXc_lt⟩ := toUInt16_bias c.x
  obtain ⟨hYc, hYc_lt⟩ := toUInt16_bias c.y
  have hdx : 2 ^ k ∣ toUInt16 (c.x.val - INT16_MIN) := by
    rw [← hXc, ← hP] at hx
    exact Int.natCast_dvd_natCast.mp hx
  have hdy : 2 ^ k ∣ toUInt16 (c.y.val - INT16_MIN) := by
    rw [← hYc, ← hP] at hy
    exact Int.natCast_dvd_natCast.mp hy
  have hXtop := aligned_add_le k _ hk hdx hXc_lt
  have hYtop := aligned_add_le k _ hk hdy hYc_lt
  have surj : ∀ n : Nat, c.z_order ≤ n → n < c.z_order + 4 ^ k →
      ∃ l : Location,
        (c.x.val ≤ l.x.val ∧ l.x.val < c.x.val + (2 : Int) ^ k
          ∧ c.y.val ≤ l.y.val ∧ l.y.val < c.y.val + (2 : Int) ^ k)
        ∧ l.z_order = n := by
    intro n hlo hhi
    obtain ⟨dx, dy, hdx', hdy', hsum⟩ := spreadBits_surj k (n - c.z_order) (by omega)
    have hlx : (toInt16 (c.x.val + dx)).val = c.x.val + dx :=
      toInt16_of_range _ (by have := c.x.property.1; omega) (by omega)
    have hly : (toInt16 (c.y.val + dy)).val = c.y.val + dy :=
      toInt16_of_range _ (by have := c.y.property.1; omega) (by omega)
    refine ⟨⟨toInt16 (c.x.val + dx), toInt16 (c.y.val + dy)⟩, ⟨?_, ?_, ?_, ?_⟩, ?_⟩
    · show c.x.val ≤ (toInt16 (c.x.val + dx)).val
      omega
    · show (toInt16 (c.x.val + dx)).val < c.x.val + (2 : Int) ^ k
      omega
    · show c.y.val ≤ (toInt16 (c.y.val + dy)).val
      omega
    · show (toInt16 (c.y.val + dy)).val < c.y.val + (2 : Int) ^ k
      omega
    · rw [z_order_block_offset k hk c _ hdx hdy dx dy hdx' hdy' hlx hly, hsum]
      omega
  refine ⟨fun l => ⟨?_, ?_⟩, surj⟩
  · rintro ⟨h1, h2, h3, h4⟩
    have hoff := z_order_block_offset k hk c l hdx hdy (l.x.val - c.x.val).toNat
      (l.y.val - c.y.val).toNat (by omega) (by omega) (by omega) (by omega)
    have hbx := spreadBits_bound k (l.x.val - c.x.val).toNat
    have hby := spreadBits_bound k (l.y.val - c.y.val).toNat
    omega
  · rintro ⟨h1, h2⟩
    obtain ⟨l', hblock, hz⟩ := surj l.z_order h1 h2
    have hl : l' = l := z_order_inj l' l hz
    rw [← hl]
    exact hblock

/-- An instance of C18: the 4 by 4 block whose corner is the tile `(0, 4)`; the
tile `(3, 7)` is its last location and has the code of the corner plus 15. -/
theorem z_order_aligned_block_witness :
    (Location.mk (toInt16 0) (toInt16 4)).z_order
        ≤ (Location.mk (toInt16 3) (toInt16 7)).z_order
      ∧ (Location.mk (toInt16 3) (toInt16 7)).z_order
        < (Location.mk (toInt16 0) (toInt16 4)).z_order + 4 ^ 2 :=
  ((z_order_aligned_block 2 (by decide) (Location.mk (toInt16 0) (toInt16 4))
      (by decide) (by decide)).1 (Location.mk (toInt16 3) (toInt16 7))).mp
    ⟨by decide, by decide, by decide, by decide⟩

end Nextpnr
